import Mathlib

/-!
Verification development for the kube-git-backup reconciliation pipeline
(resource selection, field sanitization, repository synchronization).

The Go sources are shallowly embedded:
* `map[string]interface{}` documents become association lists of `Val`
  (Go maps have unique keys; the list order plays the role of the canonical
  key order used by the deterministic YAML marshaller, so document equality
  coincides with byte equality of the serialized output);
* in-place map mutation becomes functional update (`mapSet`/`mapDelete`);
* a Go runtime panic (out-of-range string slicing in `removeFieldByPath`)
  is modelled as `Option.none`;
* fallible conversion of a raw object to a generic document
  (`runtime.DefaultUnstructuredConverter.ToUnstructured`) is modelled by the
  record carrying `Option Doc` as its payload.
-/

namespace KubeGitBackup

/-- A YAML/JSON-like value, the shallow embedding of Go's `interface{}`
as it appears in `map[string]interface{}` documents. -/
inductive Val where
  | str : String → Val
  | int : Int → Val
  | bool : Bool → Val
  | null : Val
  | arr : List Val → Val
  | map : List (String × Val) → Val
deriving Inhabited, Repr

/-- A generic document, Go's `map[string]interface{}` as an association list
with unique keys. -/
abbrev Doc := List (String × Val)

mutual

/-- Structural equality test for values (Go `reflect.DeepEqual` semantics). -/
def Val.beq : Val → Val → Bool
  | .str a, .str b => a == b
  | .int a, .int b => a == b
  | .bool a, .bool b => a == b
  | .null, .null => true
  | .arr a, .arr b => Val.beqList a b
  | .map a, .map b => Val.beqPairs a b
  | _, _ => false

/-- Elementwise equality of value lists. -/
def Val.beqList : List Val → List Val → Bool
  | [], [] => true
  | a :: as', b :: bs' => Val.beq a b && Val.beqList as' bs'
  | _, _ => false

/-- Elementwise equality of documents. -/
def Val.beqPairs : List (String × Val) → List (String × Val) → Bool
  | [], [] => true
  | (k, v) :: as', (k', v') :: bs' => k == k' && Val.beq v v' && Val.beqPairs as' bs'
  | _, _ => false

end

instance : BEq Val := ⟨Val.beq⟩

/-- Go `m[k]` lookup on a document (first matching key). -/
def mapGet (m : Doc) (k : String) : Option Val :=
  (m.find? (fun p => p.1 == k)).map (·.2)

/-- Go `delete(m, k)` on a document. -/
def mapDelete (m : Doc) (k : String) : Doc :=
  m.filter (fun p => p.1 != k)

/-- Go `m[k] = v`: replace the value at an existing key (or insert). -/
def mapSet : Doc → String → Val → Doc
  | [], k, v => [(k, v)]
  | (k', v') :: rest, k, v =>
    if k' == k then (k, v) :: rest else (k', v') :: mapSet rest k v

/-- `strings.HasSuffix` modelled on character lists. -/
def strEndsWith (s post : String) : Bool :=
  post.toList.isSuffixOf s.toList

/-- `strings.HasPrefix` modelled on character lists. -/
def strStartsWith (s pre : String) : Bool :=
  pre.toList.isPrefixOf s.toList

/-- `strings.ToLower` (resource kind names are ASCII). -/
def strToLower (s : String) : String :=
  String.mk (s.toList.map Char.toLower)

/-- `strings.Contains(s, c)` for a single-character needle. -/
def strContainsChar (s : String) (c : Char) : Bool :=
  s.toList.contains c

/-- Split a character list at every occurrence of `sep`
(`strings.Split` for a single-character separator: splitting the empty
string yields `[""]`, and `n` separators yield `n+1` fields). -/
def splitOnChar (sep : Char) : List Char → List (List Char)
  | [] => [[]]
  | c :: rest =>
    if c == sep then [] :: splitOnChar sep rest
    else
      match splitOnChar sep rest with
      | h :: t => (c :: h) :: t
      | [] => [[c]]

/-- `strings.Split(path, ".")`. -/
def splitDots (s : String) : List String :=
  (splitOnChar '.' s.toList).map String.mk

/-- `strings.Join(parts, ".")`. -/
def joinDots : List String → String
  | [] => ""
  | [p] => p
  | p :: rest => p ++ "." ++ joinDots rest

/-- Does the segment contain the literal two-character substring `[]`
(`strings.Contains(part, "[]")`)? -/
def hasWildcardPair : List Char → Bool
  | '[' :: ']' :: _ => true
  | _ :: rest => hasWildcardPair rest
  | [] => false

/-- `strings.Contains(part, "[]")`. -/
def hasWildcard (s : String) : Bool :=
  hasWildcardPair s.toList

/-- `strings.TrimSuffix(part, "[]")`. -/
def trimWildcard (s : String) : String :=
  if strEndsWith s "[]" then String.mk (s.toList.take (s.toList.length - 2)) else s

/-- Index of the first occurrence of a character (`strings.Index` for a
single-byte needle, on a string known to contain it). -/
def charIdx (s : String) (c : Char) : Nat :=
  s.toList.findIdx (fun d => d == c)

/-- `part[:i]` for a Go string slice. -/
def strTake (s : String) (n : Nat) : String :=
  String.mk (s.toList.take n)

/-- `part[i:j]` for a Go string slice with `i ≤ j` (the caller models the
`i > j` bounds panic separately). -/
def strSlice (s : String) (i j : Nat) : String :=
  String.mk ((s.toList.drop i).take (j - i))

/-- The body of `removeFieldByPath` acting on the dot-split segment list
`parts`.  The Go function walks `parts[:len-1]` with a `current` pointer and
mutates nested maps in place; here each level is rebuilt with `mapSet`.
Go path segments never contain `'.'` (they come from `strings.Split(path,
".")`), so the recursive call `removeFieldByPath(itemMap, remainingPath)` in
the array branch re-splits `strings.Join(parts[i+1:], ".")` back into exactly
the remaining segment list.  `none` models the Go slice-bounds panic
`part[i1+1:i2]` raised when the first `]` of a bracketed segment precedes its
first `[`. -/
def removeSub : List String → Doc → Option Doc
  | [] => fun obj => some obj
  | [p] => fun obj => some (mapDelete obj p)
  | part :: rest => fun obj =>
    let recur := removeSub rest
    if hasWildcard part then
      -- array notation like "ports[].nodePort"
      let arrayField := trimWildcard part
      match mapGet obj arrayField with
      | some (Val.arr items) =>
        (items.mapM (fun item =>
          match item with
          | Val.map itemMap =>
            if joinDots rest == "" then some (Val.map itemMap)
            else (recur itemMap).map Val.map
          | other => some other)).map
          (fun items' => mapSet obj arrayField (Val.arr items'))
      | _ => some obj
    else if strContainsChar part '[' && strContainsChar part ']' then
      -- special annotation syntax like "annotations[key]"
      let i1 := charIdx part '['
      let i2 := charIdx part ']'
      if i2 < i1 + 1 then none  -- Go: slice bounds panic in part[i1+1:i2]
      else
        let fieldName := strTake part i1
        let key := strSlice part (i1 + 1) i2
        match mapGet obj fieldName with
        | some (Val.map fieldMap) => some (mapSet obj fieldName (Val.map (mapDelete fieldMap key)))
        | _ => some obj
    else
      -- regular nested field
      match mapGet obj part with
      | some (Val.map nextMap) =>
        (recur nextMap).map (fun m => mapSet obj part (Val.map m))
      | some _ => some obj  -- can't traverse further
      | none => some obj    -- path doesn't exist

/-- `removeFieldByPath(obj, path)`: remove the field addressed by a
dot-separated path, `none` modelling a runtime panic. -/
def removeFieldByPath (obj : Doc) (path : String) : Option Doc :=
  if path == "" then some obj
  else removeSub (splitDots path) obj

/-! ### Field sanitizer (`internal/sanitizer/sanitizer.go`) -/

/-- Server-assigned metadata fields removed by `sanitizeMetadata`. -/
def metadataFieldsToRemove : List String :=
  ["uid", "selfLink", "resourceVersion", "generation", "creationTimestamp",
   "deletionTimestamp", "deletionGracePeriodSeconds", "managedFields"]

/-- The two ephemeral annotation keys stripped by `sanitizeMetadata`. -/
def lastAppliedKey : String := "kubectl.kubernetes.io/last-applied-configuration"

/-- See `lastAppliedKey`. -/
def revisionKey : String := "deployment.kubernetes.io/revision"

/-- Patch the map value at key `a` with `f`; leave the document unchanged
when `a` is missing or not a map.  The shape of every in-place submap update
of the sanitizer. -/
def patchAt (m : Doc) (a : String) (f : Doc → Doc) : Doc :=
  match mapGet m a with
  | some (Val.map md) => mapSet m a (Val.map (f md))
  | _ => m

/-- The nodePort scrub on a spec map (`sanitizeSpec`'s ports loop, also the
`spec.ports[].nodePort` wildcard strip step): delete `nodePort` from every
map entry of the `ports` array. -/
def patchPorts (sp : Doc) : Doc :=
  match mapGet sp "ports" with
  | some (Val.arr items) =>
    mapSet sp "ports" (Val.arr (items.map (fun item =>
      match item with
      | Val.map im => Val.map (mapDelete im "nodePort")
      | other => other)))
  | _ => sp

/-- The annotations clause of `sanitizeMetadata`: strip the two ephemeral
annotation keys and drop the container if it became empty. -/
def mdAnnStep (md : Doc) : Doc :=
  match mapGet md "annotations" with
  | some (Val.map annotationsMap) =>
    let am := mapDelete (mapDelete annotationsMap lastAppliedKey) revisionKey
    if am.isEmpty then mapDelete md "annotations"
    else mapSet md "annotations" (Val.map am)
  | _ => md

/-- The labels clause of `sanitizeMetadata`: strip `pod-template-hash` and
drop the container if it became empty. -/
def mdLabelsStep (md : Doc) : Doc :=
  match mapGet md "labels" with
  | some (Val.map labelsMap) =>
    let lm := mapDelete labelsMap "pod-template-hash"
    if lm.isEmpty then mapDelete md "labels"
    else mapSet md "labels" (Val.map lm)
  | _ => md

/-- The body of `sanitizeMetadata` acting on the metadata map: strip the
eight server-assigned fields, then the annotations clause, then the labels
clause. -/
def mdProcess (metadataMap : Doc) : Doc :=
  mdLabelsStep (mdAnnStep (metadataFieldsToRemove.foldl mapDelete metadataMap))

/-- `sanitizeMetadata`: apply `mdProcess` to the metadata map in place. -/
def sanitizeMetadata (obj : Doc) : Doc :=
  match mapGet obj "metadata" with
  | some (Val.map metadataMap) => mapSet obj "metadata" (Val.map (mdProcess metadataMap))
  | _ => obj

/-- `unstructured.GetKind()`: the `kind` field as a string, `""` when missing
or not a string. -/
def getKind (obj : Doc) : String :=
  match mapGet obj "kind" with
  | some (Val.str k) => k
  | _ => ""

/-- The Service clause of `sanitizeSpec`: drop the cluster-assigned IPs and
the per-port node ports. -/
def spService (kind : String) (sp : Doc) : Doc :=
  if kind == "Service" then
    patchPorts (mapDelete (mapDelete sp "clusterIP") "clusterIPs")
  else sp

/-- The PersistentVolumeClaim clause of `sanitizeSpec`. -/
def spPVC (kind : String) (sp : Doc) : Doc :=
  if kind == "PersistentVolumeClaim" then
    mapDelete (mapDelete sp "volumeName") "volumeMode"
  else sp

/-- The PersistentVolume clause of `sanitizeSpec`. -/
def spPV (kind : String) (sp : Doc) : Doc :=
  if kind == "PersistentVolume" then mapDelete sp "claimRef" else sp

/-- The body of `sanitizeSpec` acting on the spec map, given the object's
kind: Service cluster IPs and node ports, PVC volume binding, PV claim
back-reference, in source order. -/
def spProcess (kind : String) (specMap : Doc) : Doc :=
  spPV kind (spPVC kind (spService kind specMap))

/-- `sanitizeSpec`: apply `spProcess` to the spec map in place. -/
def sanitizeSpec (obj : Doc) : Doc :=
  match mapGet obj "spec" with
  | some (Val.map specMap) => mapSet obj "spec" (Val.map (spProcess (getKind obj) specMap))
  | _ => obj

/-- `sanitizeStatus`: drop the whole `status` subtree. -/
def sanitizeStatus (obj : Doc) : Doc :=
  mapDelete obj "status"

/-- The static list of strip paths applied by `applyCustomStripFields`. -/
def staticStripFields : List String :=
  ["metadata.uid",
   "metadata.selfLink",
   "metadata.resourceVersion",
   "metadata.generation",
   "metadata.creationTimestamp",
   "metadata.annotations[kubectl.kubernetes.io/last-applied-configuration]",
   "metadata.annotations[deployment.kubernetes.io/revision]",
   "status",
   "spec.clusterIP",
   "spec.clusterIPs",
   "spec.ports[].nodePort"]

/-- `applyCustomStripFields`: apply every static strip path in order
(`none` models a panic in `removeFieldByPath`, which the static list never
triggers). -/
def applyCustomStripFields (obj : Doc) : Option Doc :=
  List.foldlM removeFieldByPath obj staticStripFields

/-- The full per-document sanitization pipeline of `sanitizeResource`:
metadata scrub, kind-specific spec scrub, status scrub, then the declarative
path-strip pass. -/
def sanitizeDoc (obj : Doc) : Option Doc :=
  applyCustomStripFields (sanitizeStatus (sanitizeSpec (sanitizeMetadata obj)))

/-- `collector.Resource`: identity plus raw payload.  `obj = none` models a
raw object that `runtime.DefaultUnstructuredConverter.ToUnstructured` cannot
normalize to a generic document. -/
structure Resource where
  apiVersion : String
  kind : String
  /-- the Go `Namespace` field -/
  ns : String
  name : String
  obj : Option Doc
deriving Repr

/-- `sanitizer.SanitizedResource`: identity plus the sanitized document
(`yaml.Marshal` is deterministic and injective on documents, so the document
itself stands for the serialized bytes). -/
structure SanitizedResource where
  apiVersion : String
  kind : String
  /-- the Go `Namespace` field -/
  ns : String
  name : String
  yaml : Doc
deriving Repr

/-- `sanitizeResource`: convert the raw payload to a generic document and run
the sanitization pipeline.  The `Except.error` on a `none` payload mirrors
the Go wrapped conversion error; the panic case of the strip pass cannot
occur for the static field list. -/
def sanitizeResource (r : Resource) : Except String SanitizedResource :=
  match r.obj with
  | none => .error "failed to convert to unstructured"
  | some m =>
    match sanitizeDoc m with
    | some d => .ok ⟨r.apiVersion, r.kind, r.ns, r.name, d⟩
    | none => .error "panic"

/-- `SanitizeResources`: sanitize a list of resources, returning the first
record's error and no output as soon as any record fails. -/
def SanitizeResources : List Resource → Except String (List SanitizedResource)
  | [] => .ok []
  | r :: rest =>
    match sanitizeResource r with
    | .error e => .error ("failed to sanitize resource " ++ r.ns ++ "/"
        ++ r.name ++ ": " ++ e)
    | .ok s =>
      match SanitizeResources rest with
      | .error e => .error e
      | .ok l => .ok (s :: l)

/-! ### Resource selector (`internal/collector/collector.go`) -/

/-- The selection lists of `config.KubernetesConfig`. -/
structure KubernetesConfig where
  includeResources : List String
  excludeResources : List String
  includeNamespaces : List String
  excludeNamespaces : List String
deriving Repr

/-- `shouldIncludeResource`: exclude list wins; an empty include list means
include everything not excluded. -/
def shouldIncludeResource (cfg : KubernetesConfig) (resourceType : String) : Bool :=
  if cfg.excludeResources.contains resourceType then false
  else if cfg.includeResources.isEmpty then true
  else cfg.includeResources.contains resourceType

/-- `shouldIncludeNamespace`: exclude list wins; a non-empty include list
restricts to its members. -/
def shouldIncludeNamespace (cfg : KubernetesConfig) (ns : String) : Bool :=
  if cfg.excludeNamespaces.contains ns then false
  else if cfg.includeNamespaces.isEmpty then true
  else cfg.includeNamespaces.contains ns

/-- A listed Namespace object (`ns.Name` plus its raw payload). -/
structure NamespaceItem where
  name : String
  raw : Doc
deriving Repr

/-- `collectNamespaces`: Namespace resources are filtered by their own name
against the namespace include/exclude lists. -/
def collectNamespaces (cfg : KubernetesConfig) (items : List NamespaceItem) :
    List Resource :=
  (items.filter (fun ns => shouldIncludeNamespace cfg ns.name)).map
    (fun ns => ⟨"v1", "Namespace", "", ns.name, some ns.raw⟩)

/-- A listed PersistentVolume object. -/
structure PVItem where
  name : String
  raw : Doc
deriving Repr

/-- `collectPersistentVolumes`: every listed PV is collected (no namespace
filter: PVs are cluster-scoped). -/
def collectPersistentVolumes (items : List PVItem) : List Resource :=
  items.map (fun pv => ⟨"v1", "PersistentVolume", "", pv.name, some pv.raw⟩)

/-- A listed StorageClass object. -/
structure StorageClassItem where
  name : String
  raw : Doc
deriving Repr

/-- `collectStorageClasses`: every listed StorageClass is collected. -/
def collectStorageClasses (items : List StorageClassItem) : List Resource :=
  items.map (fun sc => ⟨"storage.k8s.io/v1", "StorageClass", "", sc.name, some sc.raw⟩)

/-- A listed ConfigMap object. -/
structure ConfigMapItem where
  ns : String
  name : String
  raw : Doc
deriving Repr

/-- `collectConfigMaps`: namespace filter plus the hard-coded exclusion of
`kube-root-ca.crt`. -/
def collectConfigMaps (cfg : KubernetesConfig) (items : List ConfigMapItem) :
    List Resource :=
  (items.filter (fun cm =>
      shouldIncludeNamespace cfg cm.ns && cm.name != "kube-root-ca.crt")).map
    (fun cm => ⟨"v1", "ConfigMap", cm.ns, cm.name, some cm.raw⟩)

/-- A listed Secret object (`secret.Type` is `secretType`). -/
structure SecretItem where
  ns : String
  name : String
  secretType : String
  raw : Doc
deriving Repr

/-- `collectSecrets`: namespace filter plus the hard-coded skip of
service-account-token and Helm release secrets. -/
def collectSecrets (cfg : KubernetesConfig) (items : List SecretItem) :
    List Resource :=
  (items.filter (fun s =>
      shouldIncludeNamespace cfg s.ns &&
      !(s.secretType == "kubernetes.io/service-account-token" ||
        s.secretType == "helm.sh/release.v1"))).map
    (fun s => ⟨"v1", "Secret", s.ns, s.name, some s.raw⟩)

/-- A listed ServiceAccount object. -/
structure ServiceAccountItem where
  ns : String
  name : String
  raw : Doc
deriving Repr

/-- `collectServiceAccounts`: namespace filter plus the hard-coded skip of
the `default` service account. -/
def collectServiceAccounts (cfg : KubernetesConfig)
    (items : List ServiceAccountItem) : List Resource :=
  (items.filter (fun sa =>
      shouldIncludeNamespace cfg sa.ns && sa.name != "default")).map
    (fun sa => ⟨"v1", "ServiceAccount", sa.ns, sa.name, some sa.raw⟩)

/-- The hard-coded system name prefixes of `isSystemClusterRole` and
`isSystemClusterRoleBinding`. -/
def systemPrefixes : List String :=
  ["system:", "kubernetes-", "k8s-", "cilium", "coredns", "kube-dns",
   "metrics-server"]

/-- `isSystemClusterRole`. -/
def isSystemClusterRole (name : String) : Bool :=
  systemPrefixes.any (fun p => strStartsWith name p)

/-- `isSystemClusterRoleBinding` (same prefix list). -/
def isSystemClusterRoleBinding (name : String) : Bool :=
  systemPrefixes.any (fun p => strStartsWith name p)

/-- A listed ClusterRole object. -/
structure ClusterRoleItem where
  name : String
  raw : Doc
deriving Repr

/-- `collectClusterRoles`: skip `admin`/`edit`/`view` and system-prefixed
cluster roles. -/
def collectClusterRoles (items : List ClusterRoleItem) : List Resource :=
  (items.filter (fun cr =>
      cr.name != "admin" && cr.name != "edit" && cr.name != "view" &&
      !isSystemClusterRole cr.name)).map
    (fun cr => ⟨"rbac.authorization.k8s.io/v1", "ClusterRole", "", cr.name, some cr.raw⟩)

/-- A listed ClusterRoleBinding object. -/
structure ClusterRoleBindingItem where
  name : String
  raw : Doc
deriving Repr

/-- `collectClusterRoleBindings`: skip only system-prefixed bindings (there
is no `admin`/`edit`/`view` name check here). -/
def collectClusterRoleBindings (items : List ClusterRoleBindingItem) :
    List Resource :=
  (items.filter (fun crb => !isSystemClusterRoleBinding crb.name)).map
    (fun crb => ⟨"rbac.authorization.k8s.io/v1", "ClusterRoleBinding", "",
      crb.name, some crb.raw⟩)

/-! ### Repository synchronizer (`internal/git/git.go`)

The working tree and the tree of the last commit are maps from repository-
relative file paths to file contents; a file's content is the sanitized
document it stores (`yaml.Marshal` being deterministic and injective, document
equality is byte equality).  `git add .` stages the whole working tree, so
`worktree.Status().IsClean()` holds exactly when the working tree and the
HEAD tree agree as path-to-content maps. -/

/-- A file tree: repository-relative path to file content. -/
abbrev FileTree := List (String × Doc)

/-- `os.WriteFile`: create or overwrite one file. -/
def setFile : FileTree → String → Doc → FileTree
  | [], p, c => [(p, c)]
  | (p', c') :: rest, p, c =>
    if p' == p then (p, c) :: rest else (p', c') :: setFile rest p c

/-- Content of the file at a path, if present. -/
def lookupFile (t : FileTree) (p : String) : Option Doc :=
  (t.find? (fun f => f.1 == p)).map (·.2)

/-- The repository-relative file path of a sanitized resource
(`writeResources` / `CleanupOldBackups`): `cluster-scoped/<lower-kind>/<name>.yaml`
or `namespaces/<namespace>/<lower-kind>/<name>.yaml`. -/
def resourcePath (r : SanitizedResource) : String :=
  if r.ns == "" then
    "cluster-scoped/" ++ strToLower r.kind ++ "/" ++ r.name ++ ".yaml"
  else
    "namespaces/" ++ r.ns ++ "/" ++ strToLower r.kind ++ "/" ++ r.name ++ ".yaml"

/-- The current cycle's path set. -/
def currentPaths (resources : List SanitizedResource) : List String :=
  resources.map resourcePath

/-- `CleanupOldBackups`: delete every regular `.yaml` file outside the
`.git` directory whose relative path is not in the current path set. -/
def cleanupOldBackups (wt : FileTree) (resources : List SanitizedResource) :
    FileTree :=
  wt.filter (fun f =>
    !(strEndsWith f.1 ".yaml" && !strStartsWith f.1 ".git" &&
      !(currentPaths resources).contains f.1))

/-- `writeResources`: write/overwrite every sanitized resource's file. -/
def writeResources (wt : FileTree) (resources : List SanitizedResource) :
    FileTree :=
  resources.foldl (fun acc r => setFile acc (resourcePath r) r.yaml) wt

/-- `worktree.Status().IsClean()`: the staged working tree and the HEAD tree
agree as path-to-content maps. -/
def treeClean (wt head : FileTree) : Bool :=
  (wt.map Prod.fst ++ head.map Prod.fst).all
    (fun p => lookupFile wt p == lookupFile head p)

/-- The synchronizer's local repository state. -/
structure SyncState where
  workTree : FileTree
  head : FileTree
  commitCount : Nat
deriving Repr

/-- `commitChanges`: skip the commit when the tree is clean, otherwise
commit the working tree; returns whether a commit was created. -/
def commitChanges (st : SyncState) : SyncState × Bool :=
  if treeClean st.workTree st.head then (st, false)
  else ({ st with head := st.workTree, commitCount := st.commitCount + 1 }, true)

/-- `BackupResources`: pull (a no-op on the local tree when the remote has
nothing new), reconcile deletions, materialize files, stage everything,
conditionally commit, then always invoke `pushChanges`.  Returns the new
state, whether a commit was created, and whether a push was attempted. -/
def backupResources (st : SyncState) (resources : List SanitizedResource) :
    SyncState × Bool × Bool :=
  let wt1 := cleanupOldBackups st.workTree resources
  let wt2 := writeResources wt1 resources
  let (st', didCommit) := commitChanges { st with workTree := wt2 }
  (st', didCommit, true)

/-! ### Concrete documents used in the scenario theorems -/

/-- The Service record's raw document from the spec scenario:
`(v1, Service, "default", "web", {spec:{clusterIP:"10.0.0.1",
ports:[{port:80, nodePort:30080}]}})`. -/
def serviceWebDoc : Doc :=
  [("apiVersion", Val.str "v1"), ("kind", Val.str "Service"),
   ("metadata", Val.map [("name", Val.str "web"), ("namespace", Val.str "default")]),
   ("spec", Val.map
     [("clusterIP", Val.str "10.0.0.1"),
      ("ports", Val.arr [Val.map [("port", Val.int 80), ("nodePort", Val.int 30080)]])])]

/-- The Service record's document after sanitization: no `clusterIP`, no
`nodePort` under `ports[0]`. -/
def serviceWebSanitized : Doc :=
  [("apiVersion", Val.str "v1"), ("kind", Val.str "Service"),
   ("metadata", Val.map [("name", Val.str "web"), ("namespace", Val.str "default")]),
   ("spec", Val.map [("ports", Val.arr [Val.map [("port", Val.int 80)]])])]

/-- A one-file working tree for the no-change-cycle scenario: the file of a
`Namespace "prod"` record, identical in the working tree and in HEAD. -/
def prodNsTree : FileTree :=
  [("cluster-scoped/namespace/prod.yaml", [("kind", Val.str "Namespace")])]

/-- The sanitized records of the no-change cycle matching `prodNsTree`. -/
def prodNsRecords : List SanitizedResource :=
  [⟨"v1", "Namespace", "", "prod", [("kind", Val.str "Namespace")]⟩]

/-- A prior-cycle working tree holding the files of records A and B. -/
def treeAB : FileTree :=
  [("namespaces/default/configmap/a.yaml", [("kind", Val.str "ConfigMap"), ("data", Val.str "a")]),
   ("namespaces/default/configmap/b.yaml", [("kind", Val.str "ConfigMap"), ("data", Val.str "b")])]

/-- Record B of the current cycle, with content unchanged from `treeAB`. -/
def recordB : SanitizedResource :=
  ⟨"v1", "ConfigMap", "default", "b", [("kind", Val.str "ConfigMap"), ("data", Val.str "b")]⟩

/-- The current cycle's records: B (unchanged) and a new record C. -/
def recordsBC : List SanitizedResource :=
  [recordB, ⟨"v1", "ConfigMap", "default", "c", [("kind", Val.str "ConfigMap"), ("data", Val.str "c")]⟩]

/-! ### Specification predicates -/

/-- A path segment that cannot trigger the slice-bounds panic of the
bracketed-key branch: it contains `[]`, or not both `[` and `]`, or its
first `[` comes before its first `]`. -/
def segOK (s : String) : Bool :=
  hasWildcard s || !(strContainsChar s '[' && strContainsChar s ']') ||
    !(decide (charIdx s ']' < charIdx s '[' + 1))

/-- A strip path all of whose non-final segments are panic-free. -/
def pathOK (path : String) : Bool :=
  (splitDots path).dropLast.all segOK

/-- A metadata map with none of the eight server-assigned fields. -/
def mdCore (md : Doc) : Prop :=
  ∀ f ∈ metadataFieldsToRemove, mapGet md f = none

/-- A metadata map whose `annotations` submap (when present as a map) lacks
the two ephemeral keys and is non-empty. -/
def mdAnn (md : Doc) : Prop :=
  ∀ am, mapGet md "annotations" = some (Val.map am) →
    mapGet am lastAppliedKey = none ∧ mapGet am revisionKey = none ∧ am ≠ []

/-- A metadata map whose `labels` submap (when present as a map) lacks
`pod-template-hash` and is non-empty. -/
def mdLbl (md : Doc) : Prop :=
  ∀ lm, mapGet md "labels" = some (Val.map lm) →
    mapGet lm "pod-template-hash" = none ∧ lm ≠ []

/-- The residue of a malformed bracketed static strip path: the literal key
`k1` (e.g. `annotations[kubectl`), when present as a map with a `kubernetes`
submap, lacks the final segment key `k2`. -/
def mdOrphan (md : Doc) (k1 k2 : String) : Prop :=
  ∀ q r, mapGet md k1 = some (Val.map q) → mapGet q "kubernetes" = some (Val.map r) →
    mapGet r k2 = none

/-- The metadata facts established by `sanitizeMetadata`. -/
def docMdBase (x : Doc) : Prop :=
  ∀ md, mapGet x "metadata" = some (Val.map md) → mdCore md ∧ mdAnn md ∧ mdLbl md

/-- The metadata facts established by the two (malformed) bracketed static
strip paths. -/
def docMdOrphans (x : Doc) : Prop :=
  ∀ md, mapGet x "metadata" = some (Val.map md) →
    mdOrphan md "annotations[kubectl" "io/last-applied-configuration]" ∧
    mdOrphan md "annotations[deployment" "io/revision]"

/-- The spec facts established unconditionally by the last three static strip
paths. -/
def docSpecIPs (x : Doc) : Prop :=
  ∀ sp, mapGet x "spec" = some (Val.map sp) →
    mapGet sp "clusterIP" = none ∧ mapGet sp "clusterIPs" = none ∧
    (∀ ps, mapGet sp "ports" = some (Val.arr ps) →
      ∀ pm, Val.map pm ∈ ps → mapGet pm "nodePort" = none)

/-- The kind-conditional spec facts established by `sanitizeSpec`. -/
def docSpecKinds (x : Doc) : Prop :=
  ∀ sp, mapGet x "spec" = some (Val.map sp) →
    (getKind x = "PersistentVolumeClaim" →
      mapGet sp "volumeName" = none ∧ mapGet sp "volumeMode" = none) ∧
    (getKind x = "PersistentVolume" → mapGet sp "claimRef" = none)

/-- A fully sanitized document: the pipeline fixes exactly these documents. -/
def sanitizedInv (x : Doc) : Prop :=
  docMdBase x ∧ docMdOrphans x ∧ docSpecIPs x ∧ docSpecKinds x ∧
    mapGet x "status" = none

/-- Static strip steps 1-5: the five plain `metadata.*` paths. -/
def stripMetaFields (m : Doc) : Doc :=
  patchAt (patchAt (patchAt (patchAt (patchAt m
    "metadata" (fun md => mapDelete md "uid"))
    "metadata" (fun md => mapDelete md "selfLink"))
    "metadata" (fun md => mapDelete md "resourceVersion"))
    "metadata" (fun md => mapDelete md "generation"))
    "metadata" (fun md => mapDelete md "creationTimestamp")

/-- Static strip steps 6-7: the two bracketed annotation paths, whose
dot-split segments address the literal keys `annotations[kubectl` and
`annotations[deployment`. -/
def stripOrphans (m : Doc) : Doc :=
  patchAt
    (patchAt m "metadata" (fun md => patchAt md "annotations[kubectl"
      (fun q => patchAt q "kubernetes"
        (fun r => mapDelete r "io/last-applied-configuration]"))))
    "metadata" (fun md => patchAt md "annotations[deployment"
      (fun q => patchAt q "kubernetes" (fun r => mapDelete r "io/revision]")))

/-- Static strip steps 9-11: the `spec.clusterIP`, `spec.clusterIPs` and
`spec.ports[].nodePort` paths. -/
def stripSpecIPs (m : Doc) : Doc :=
  patchAt (patchAt (patchAt m
    "spec" (fun sp => mapDelete sp "clusterIP"))
    "spec" (fun sp => mapDelete sp "clusterIPs"))
    "spec" patchPorts

/-- The static strip pass in closed form: the eleven `removeFieldByPath`
steps of `applyCustomStripFields`, which never panic on the static field
list (`applyCustomStripFields_eq` proves the correspondence); step 8 is the
plain `status` path. -/
def stripAll (m : Doc) : Doc :=
  stripSpecIPs (mapDelete (stripOrphans (stripMetaFields m)) "status")

/-! ## Lemmas: association-list algebra -/

theorem mapGet_nil (k : String) : mapGet [] k = none := rfl

theorem mapGet_cons (a : String × Val) (m : Doc) (k : String) :
    mapGet (a :: m) k = if a.1 = k then some a.2 else mapGet m k := by
  by_cases h : a.1 = k <;> simp [mapGet, List.find?_cons, h]

theorem mapDelete_cons (a : String × Val) (m : Doc) (k : String) :
    mapDelete (a :: m) k = if a.1 = k then mapDelete m k else a :: mapDelete m k := by
  by_cases h : a.1 = k <;> simp [mapDelete, List.filter_cons, h]

theorem mapSet_cons (a : String × Val) (m : Doc) (k : String) (v : Val) :
    mapSet (a :: m) k v = if a.1 = k then (k, v) :: m else a :: mapSet m k v := by
  obtain ⟨k', v'⟩ := a
  by_cases h : k' = k <;> simp [mapSet, h]

theorem mapGet_delete_self (m : Doc) (k : String) :
    mapGet (mapDelete m k) k = none := by
  induction m with
  | nil => rfl
  | cons a m ih =>
    rw [mapDelete_cons]
    by_cases h : a.1 = k
    · simpa [h]
    · rw [if_neg h, mapGet_cons, if_neg h, ih]

theorem mapGet_delete_ne (m : Doc) {k k' : String} (h : k' ≠ k) :
    mapGet (mapDelete m k) k' = mapGet m k' := by
  induction m with
  | nil => rfl
  | cons a m ih =>
    rw [mapDelete_cons, mapGet_cons]
    by_cases ha : a.1 = k
    · rw [if_pos ha, if_neg (by rw [ha]; exact fun e => h e.symm), ih]
    · rw [if_neg ha, mapGet_cons, ih]

theorem mapDelete_of_get_none {m : Doc} {k : String} (h : mapGet m k = none) :
    mapDelete m k = m := by
  induction m with
  | nil => rfl
  | cons a m ih =>
    rw [mapGet_cons] at h
    by_cases ha : a.1 = k
    · rw [if_pos ha] at h; exact absurd h (by simp)
    · rw [if_neg ha] at h
      rw [mapDelete_cons, if_neg ha, ih h]

theorem mapGet_set_self (m : Doc) (k : String) (v : Val) :
    mapGet (mapSet m k v) k = some v := by
  induction m with
  | nil => simp [mapSet, mapGet_cons]
  | cons a m ih =>
    rw [mapSet_cons]
    by_cases h : a.1 = k
    · rw [if_pos h, mapGet_cons, if_pos rfl]
    · rw [if_neg h, mapGet_cons, if_neg h, ih]

theorem mapGet_set_ne (m : Doc) {k k' : String} (v : Val) (h : k' ≠ k) :
    mapGet (mapSet m k v) k' = mapGet m k' := by
  induction m with
  | nil =>
    rw [show mapSet ([] : Doc) k v = [(k, v)] from rfl, mapGet_cons,
      if_neg (fun e => h e.symm)]
  | cons a m ih =>
    rw [mapSet_cons, mapGet_cons]
    by_cases ha : a.1 = k
    · rw [if_pos ha, mapGet_cons, if_neg (fun e => h e.symm), if_neg (by rw [ha]; exact fun e => h (e.symm))]
    · rw [if_neg ha, mapGet_cons, ih]

theorem mapSet_of_get_some {m : Doc} {k : String} {v : Val}
    (h : mapGet m k = some v) : mapSet m k v = m := by
  induction m with
  | nil => simp [mapGet_nil] at h
  | cons a m ih =>
    rw [mapGet_cons] at h
    rw [mapSet_cons]
    by_cases ha : a.1 = k
    · rw [if_pos ha] at h
      rw [if_pos ha]
      obtain ⟨k', v'⟩ := a
      cases ha
      cases h
      rfl
    · rw [if_neg ha] at h
      rw [if_neg ha, ih h]

theorem mapGet_foldl_delete_of_get_none {ks : List String} {k : String}
    (m : Doc) (h : mapGet m k = none) :
    mapGet (ks.foldl mapDelete m) k = none := by
  induction ks generalizing m with
  | nil => exact h
  | cons a ks ih =>
    rw [List.foldl_cons]
    by_cases ha : k = a
    · exact ih _ (ha ▸ mapGet_delete_self m k)
    · exact ih _ ((mapGet_delete_ne m ha).trans h)

theorem mapGet_foldl_delete_of_mem {ks : List String} {k : String} (m : Doc)
    (h : k ∈ ks) : mapGet (ks.foldl mapDelete m) k = none := by
  induction ks generalizing m with
  | nil => cases h
  | cons a ks ih =>
    rw [List.foldl_cons]
    rcases List.mem_cons.mp h with h | h
    · subst h
      exact mapGet_foldl_delete_of_get_none _ (mapGet_delete_self m k)
    · exact ih _ h

theorem mapGet_foldl_delete_of_not_mem {ks : List String} {k : String} (m : Doc)
    (h : k ∉ ks) : mapGet (ks.foldl mapDelete m) k = mapGet m k := by
  induction ks generalizing m with
  | nil => rfl
  | cons a ks ih =>
    rw [List.foldl_cons, ih _ (fun hm => h (List.mem_cons_of_mem _ hm)),
      mapGet_delete_ne _ (fun e => h (by rw [e]; exact List.mem_cons_self a ks))]

theorem list_map_id_of {α : Type} {l : List α} {f : α → α}
    (h : ∀ a ∈ l, f a = a) : l.map f = l := by
  induction l with
  | nil => rfl
  | cons a l ih =>
    rw [List.map_cons, h a (List.mem_cons_self a l),
      ih (fun b hb => h b (List.mem_cons_of_mem _ hb))]

theorem list_mapM_eq_some_map {α β : Type} {l : List α} {f : α → Option β}
    {g : α → β} (h : ∀ a ∈ l, f a = some (g a)) : l.mapM f = some (l.map g) := by
  induction l with
  | nil => rfl
  | cons a l ih =>
    rw [List.mapM_cons, h a (List.mem_cons_self a l),
      ih (fun b hb => h b (List.mem_cons_of_mem _ hb))]
    rfl

/-! ## Lemmas: `removeSub` branch characterizations -/

theorem removeSub_nil (obj : Doc) : removeSub [] obj = some obj := rfl

theorem removeSub_single (p : String) (obj : Doc) :
    removeSub [p] obj = some (mapDelete obj p) := rfl

theorem removeSub_cons_eq (part q : String) (rest : List String) (obj : Doc) :
    removeSub (part :: q :: rest) obj =
      if hasWildcard part then
        match mapGet obj (trimWildcard part) with
        | some (Val.arr items) =>
          (items.mapM (fun item =>
            match item with
            | Val.map itemMap =>
              if joinDots (q :: rest) == "" then some (Val.map itemMap)
              else (removeSub (q :: rest) itemMap).map Val.map
            | other => some other)).map
            (fun items' => mapSet obj (trimWildcard part) (Val.arr items'))
        | _ => some obj
      else if strContainsChar part '[' && strContainsChar part ']' then
        if charIdx part ']' < charIdx part '[' + 1 then none
        else
          match mapGet obj (strTake part (charIdx part '[')) with
          | some (Val.map fieldMap) =>
            some (mapSet obj (strTake part (charIdx part '['))
              (Val.map (mapDelete fieldMap
                (strSlice part (charIdx part '[' + 1) (charIdx part ']')))))
          | _ => some obj
      else
        match mapGet obj part with
        | some (Val.map nextMap) =>
          (removeSub (q :: rest) nextMap).map (fun m => mapSet obj part (Val.map m))
        | some _ => some obj
        | none => some obj := rfl

theorem removeSub_cons_plain {part : String} (hw : hasWildcard part = false)
    (hb : (strContainsChar part '[' && strContainsChar part ']') = false)
    (q : String) (rest : List String) (obj : Doc) :
    removeSub (part :: q :: rest) obj =
      match mapGet obj part with
      | some (Val.map nextMap) =>
        (removeSub (q :: rest) nextMap).map (fun m => mapSet obj part (Val.map m))
      | some _ => some obj
      | none => some obj := by
  rw [removeSub_cons_eq]
  simp only [hw, hb, Bool.false_eq_true, if_false]

theorem removeSub_cons_wild {part : String} (hw : hasWildcard part = true)
    (q : String) (rest : List String) (obj : Doc) :
    removeSub (part :: q :: rest) obj =
      match mapGet obj (trimWildcard part) with
      | some (Val.arr items) =>
        (items.mapM (fun item =>
          match item with
          | Val.map itemMap =>
            if joinDots (q :: rest) == "" then some (Val.map itemMap)
            else (removeSub (q :: rest) itemMap).map Val.map
          | other => some other)).map
          (fun items' => mapSet obj (trimWildcard part) (Val.arr items'))
      | _ => some obj := by
  rw [removeSub_cons_eq]
  simp only [hw, if_true]

theorem removeSub_cons_bracket {part : String} (hw : hasWildcard part = false)
    (hb : (strContainsChar part '[' && strContainsChar part ']') = true)
    (hp : (charIdx part ']' < charIdx part '[' + 1) = False)
    (q : String) (rest : List String) (obj : Doc) :
    removeSub (part :: q :: rest) obj =
      match mapGet obj (strTake part (charIdx part '[')) with
      | some (Val.map fieldMap) =>
        some (mapSet obj (strTake part (charIdx part '['))
          (Val.map (mapDelete fieldMap
            (strSlice part (charIdx part '[' + 1) (charIdx part ']')))))
      | _ => some obj := by
  rw [removeSub_cons_eq]
  simp only [hw, hb, hp, Bool.false_eq_true, if_false, if_true]

/-! ## Lemmas: file trees -/

theorem lookupFile_nil (p : String) : lookupFile [] p = none := rfl

theorem lookupFile_cons (a : String × Doc) (t : FileTree) (p : String) :
    lookupFile (a :: t) p = if a.1 = p then some a.2 else lookupFile t p := by
  by_cases h : a.1 = p <;> simp [lookupFile, List.find?_cons, h]

theorem setFile_cons (a : String × Doc) (t : FileTree) (p : String) (c : Doc) :
    setFile (a :: t) p c = if a.1 = p then (p, c) :: t else a :: setFile t p c := by
  obtain ⟨p', c'⟩ := a
  by_cases h : p' = p <;> simp [setFile, h]

theorem lookupFile_setFile_self (t : FileTree) (p : String) (c : Doc) :
    lookupFile (setFile t p c) p = some c := by
  induction t with
  | nil => simp [setFile, lookupFile_cons]
  | cons a t ih =>
    rw [setFile_cons]
    by_cases h : a.1 = p
    · rw [if_pos h, lookupFile_cons, if_pos rfl]
    · rw [if_neg h, lookupFile_cons, if_neg h, ih]

theorem lookupFile_setFile_ne (t : FileTree) {p p' : String} (c : Doc)
    (h : p' ≠ p) : lookupFile (setFile t p c) p' = lookupFile t p' := by
  induction t with
  | nil =>
    rw [show setFile ([] : FileTree) p c = [(p, c)] from rfl, lookupFile_cons,
      if_neg (fun e => h e.symm)]
  | cons a t ih =>
    rw [setFile_cons]
    by_cases ha : a.1 = p
    · rw [if_pos ha, lookupFile_cons, lookupFile_cons, ha]
      simp only [if_neg (fun e : p = p' => h e.symm)]
    · rw [if_neg ha, lookupFile_cons, lookupFile_cons, ih]

theorem lookupFile_writeResources_of_not_mem {rs : List SanitizedResource}
    {p : String} (t : FileTree) (h : p ∉ currentPaths rs) :
    lookupFile (writeResources t rs) p = lookupFile t p := by
  induction rs generalizing t with
  | nil => rfl
  | cons r rest ih =>
    rw [show writeResources t (r :: rest)
        = writeResources (setFile t (resourcePath r) r.yaml) rest from rfl,
      ih _ (fun hm => h (List.mem_cons_of_mem _ hm)),
      lookupFile_setFile_ne _ _
        (fun e => h (by rw [e]; exact List.mem_cons_self _ _))]

theorem isSome_lookupFile_writeResources (rs : List SanitizedResource)
    (t : FileTree) (p : String) :
    (lookupFile (writeResources t rs) p).isSome = true ↔
      p ∈ currentPaths rs ∨ (lookupFile t p).isSome = true := by
  induction rs generalizing t with
  | nil => simp [writeResources, currentPaths]
  | cons r rest ih =>
    rw [show writeResources t (r :: rest)
        = writeResources (setFile t (resourcePath r) r.yaml) rest from rfl]
    rw [ih]
    by_cases hp : p = resourcePath r
    · subst hp
      simp [lookupFile_setFile_self, currentPaths]
    · rw [lookupFile_setFile_ne _ _ hp]
      constructor
      · rintro (h | h)
        · exact Or.inl (show p ∈ currentPaths (r :: rest) from
            List.mem_cons_of_mem _ h)
        · exact Or.inr h
      · rintro (h | h)
        · rcases List.mem_cons.mp h with h | h
          · exact absurd h hp
          · exact Or.inl h
        · exact Or.inr h

theorem lookupFile_filter_key (g : String → Bool) (wt : FileTree) (p : String) :
    lookupFile (wt.filter (fun f => g f.1)) p =
      if g p then lookupFile wt p else none := by
  induction wt with
  | nil => by_cases h : g p <;> simp [h, lookupFile_nil]
  | cons a wt ih =>
    rw [List.filter_cons]
    by_cases hg : g a.1
    · rw [if_pos hg, lookupFile_cons]
      by_cases hp : a.1 = p
      · rw [if_pos hp, if_pos (hp ▸ hg), lookupFile_cons, if_pos hp]
      · rw [if_neg hp, ih, lookupFile_cons, if_neg hp]
    · rw [if_neg hg, ih, lookupFile_cons]
      by_cases hp : a.1 = p
      · rw [if_neg (show ¬ g p = true from hp ▸ hg), if_neg (hp ▸ hg)]
      · rw [if_neg hp]

/-! ## Lemmas: totality of the strip pass on panic-free paths -/

theorem option_isSome_map {α β : Type} (f : α → β) (o : Option α) :
    (o.map f).isSome = o.isSome := by cases o <;> rfl

theorem list_mapM_isSome {α β : Type} {l : List α} {f : α → Option β}
    (h : ∀ a ∈ l, (f a).isSome = true) : (l.mapM f).isSome = true := by
  induction l with
  | nil => rfl
  | cons a l ih =>
    rw [List.mapM_cons]
    have h1 := h a (List.mem_cons_self a l)
    have h2 := ih (fun x hx => h x (List.mem_cons_of_mem _ hx))
    cases hfa : f a with
    | none => rw [hfa] at h1; simp at h1
    | some b =>
      cases hml : l.mapM f with
      | none => rw [hml] at h2; simp at h2
      | some bs => rfl

theorem removeSub_isSome (parts : List String)
    (h : parts.dropLast.all segOK = true) :
    ∀ obj : Doc, (removeSub parts obj).isSome = true := by
  induction parts with
  | nil => intro obj; rfl
  | cons part rest ih =>
    cases rest with
    | nil => intro obj; rfl
    | cons q rest' =>
      have hall : (part :: (q :: rest').dropLast).all segOK = true := h
      rw [List.all_cons, Bool.and_eq_true] at hall
      obtain ⟨hseg, htail⟩ := hall
      have ihq := ih htail
      intro obj
      by_cases hw : hasWildcard part = true
      · rw [removeSub_cons_wild hw]
        split
        · rw [option_isSome_map]
          apply list_mapM_isSome
          intro item _
          cases item with
          | map itemMap =>
            show (if (joinDots (q :: rest') == "") = true then some (Val.map itemMap)
                else (removeSub (q :: rest') itemMap).map Val.map).isSome = true
            by_cases hj : (joinDots (q :: rest') == "") = true
            · rw [if_pos hj]; rfl
            · rw [if_neg hj, option_isSome_map]
              exact ihq itemMap
          | str s => rfl
          | int n => rfl
          | bool b => rfl
          | null => rfl
          | arr l => rfl
        · rfl
      · rw [Bool.not_eq_true] at hw
        by_cases hb : (strContainsChar part '[' && strContainsChar part ']') = true
        · have hdec : decide (charIdx part ']' < charIdx part '[' + 1) = false := by
            rw [segOK, hw, hb] at hseg
            simpa using hseg
          have hp : (charIdx part ']' < charIdx part '[' + 1) = False := by
            simp only [eq_iff_iff, iff_false]
            exact of_decide_eq_false hdec
          rw [removeSub_cons_bracket hw hb hp]
          split
          · rfl
          · rfl
        · rw [Bool.not_eq_true] at hb
          rw [removeSub_cons_plain hw hb]
          split
          · rw [option_isSome_map]; exact ihq _
          · rfl
          · rfl

theorem lookupFile_cleanup (wt : FileTree) (rs : List SanitizedResource)
    (p : String) :
    lookupFile (cleanupOldBackups wt rs) p =
      if !(strEndsWith p ".yaml" && !strStartsWith p ".git" &&
          !(currentPaths rs).contains p)
      then lookupFile wt p else none :=
  lookupFile_filter_key
    (fun x => !(strEndsWith x ".yaml" && !strStartsWith x ".git" &&
      !(currentPaths rs).contains x)) wt p

theorem lookupFile_writeResources_self_of_nodup {rs : List SanitizedResource}
    (hnd : (currentPaths rs).Nodup) (t : FileTree) {r : SanitizedResource}
    (hr : r ∈ rs) :
    lookupFile (writeResources t rs) (resourcePath r) = some r.yaml := by
  induction rs generalizing t with
  | nil => cases hr
  | cons a rest ih =>
    have hnd' := List.nodup_cons.mp hnd
    rw [show writeResources t (a :: rest)
        = writeResources (setFile t (resourcePath a) a.yaml) rest from rfl]
    rcases List.mem_cons.mp hr with h | h
    · subst h
      rw [lookupFile_writeResources_of_not_mem _ hnd'.1, lookupFile_setFile_self]
    · exact ih hnd'.2 _ h

/-! ## Lemmas: the static strip pass in closed form -/

theorem list_mapM_eq_some_map_fun {α β : Type} {f : α → Option β}
    {g : α → β} (hfg : ∀ a, f a = some (g a)) (l : List α) :
    l.mapM f = some (l.map g) :=
  list_mapM_eq_some_map (fun a _ => hfg a)

theorem list_mapM_some {α β : Type} {g : α → β} (l : List α) :
    l.mapM (fun a => some (g a)) = some (l.map g) :=
  list_mapM_eq_some_map_fun (fun _ => rfl) l

theorem removeSub_cons_plain_patch (a : String) (hw : hasWildcard a = false)
    (hb : (strContainsChar a '[' && strContainsChar a ']') = false)
    (q : String) (rest : List String) (m : Doc) (g : Doc → Doc)
    (hg : ∀ nm, removeSub (q :: rest) nm = some (g nm)) :
    removeSub (a :: q :: rest) m = some (patchAt m a g) := by
  rw [removeSub_cons_plain hw hb]
  simp only [hg, Option.map_some']
  unfold patchAt
  cases mapGet m a with
  | none => rfl
  | some v => cases v <;> rfl

theorem removeSub_ports_wild (sp : Doc) :
    removeSub ["ports[]", "nodePort"] sp = some (patchPorts sp) := by
  rw [removeSub_cons_wild (show hasWildcard "ports[]" = true from rfl)]
  rw [show trimWildcard "ports[]" = "ports" from rfl]
  have hfun : ∀ item : Val,
      (match item with
        | Val.map itemMap =>
          if (joinDots ["nodePort"] == "") = true then some (Val.map itemMap)
          else Option.map Val.map (removeSub ["nodePort"] itemMap)
        | other => some other)
      = some (match item with
        | Val.map im => Val.map (mapDelete im "nodePort")
        | other => other) := by
    intro item
    cases item <;> rfl
  simp only [hfun, list_mapM_some, Option.map_some']
  unfold patchPorts
  cases mapGet sp "ports" with
  | none => rfl
  | some v => cases v <;> rfl

theorem rfbp_metadata_uid (m : Doc) : removeFieldByPath m "metadata.uid"
    = some (patchAt m "metadata" (fun md => mapDelete md "uid")) := by
  rw [show removeFieldByPath m "metadata.uid" = removeSub ["metadata", "uid"] m from rfl]
  exact removeSub_cons_plain_patch "metadata" rfl rfl _ _ _ _ (fun nm => removeSub_single _ nm)

theorem rfbp_metadata_selfLink (m : Doc) : removeFieldByPath m "metadata.selfLink"
    = some (patchAt m "metadata" (fun md => mapDelete md "selfLink")) := by
  rw [show removeFieldByPath m "metadata.selfLink"
      = removeSub ["metadata", "selfLink"] m from rfl]
  exact removeSub_cons_plain_patch "metadata" rfl rfl _ _ _ _ (fun nm => removeSub_single _ nm)

theorem rfbp_metadata_resourceVersion (m : Doc) :
    removeFieldByPath m "metadata.resourceVersion"
    = some (patchAt m "metadata" (fun md => mapDelete md "resourceVersion")) := by
  rw [show removeFieldByPath m "metadata.resourceVersion"
      = removeSub ["metadata", "resourceVersion"] m from rfl]
  exact removeSub_cons_plain_patch "metadata" rfl rfl _ _ _ _ (fun nm => removeSub_single _ nm)

theorem rfbp_metadata_generation (m : Doc) : removeFieldByPath m "metadata.generation"
    = some (patchAt m "metadata" (fun md => mapDelete md "generation")) := by
  rw [show removeFieldByPath m "metadata.generation"
      = removeSub ["metadata", "generation"] m from rfl]
  exact removeSub_cons_plain_patch "metadata" rfl rfl _ _ _ _ (fun nm => removeSub_single _ nm)

theorem rfbp_metadata_creationTimestamp (m : Doc) :
    removeFieldByPath m "metadata.creationTimestamp"
    = some (patchAt m "metadata" (fun md => mapDelete md "creationTimestamp")) := by
  rw [show removeFieldByPath m "metadata.creationTimestamp"
      = removeSub ["metadata", "creationTimestamp"] m from rfl]
  exact removeSub_cons_plain_patch "metadata" rfl rfl _ _ _ _ (fun nm => removeSub_single _ nm)

theorem rfbp_annotations_kubectl (m : Doc) :
    removeFieldByPath m
      "metadata.annotations[kubectl.kubernetes.io/last-applied-configuration]"
    = some (patchAt m "metadata" (fun md => patchAt md "annotations[kubectl"
        (fun q => patchAt q "kubernetes"
          (fun r => mapDelete r "io/last-applied-configuration]")))) := by
  rw [show removeFieldByPath m
        "metadata.annotations[kubectl.kubernetes.io/last-applied-configuration]"
      = removeSub ["metadata", "annotations[kubectl", "kubernetes",
          "io/last-applied-configuration]"] m from rfl]
  refine removeSub_cons_plain_patch "metadata" rfl rfl _ _ _ _ (fun nm => ?_)
  refine removeSub_cons_plain_patch "annotations[kubectl" rfl rfl _ _ _ _ (fun nm => ?_)
  exact removeSub_cons_plain_patch "kubernetes" rfl rfl _ _ _ _ (fun nm => removeSub_single _ nm)

theorem rfbp_annotations_revision (m : Doc) :
    removeFieldByPath m "metadata.annotations[deployment.kubernetes.io/revision]"
    = some (patchAt m "metadata" (fun md => patchAt md "annotations[deployment"
        (fun q => patchAt q "kubernetes" (fun r => mapDelete r "io/revision]")))) := by
  rw [show removeFieldByPath m
        "metadata.annotations[deployment.kubernetes.io/revision]"
      = removeSub ["metadata", "annotations[deployment", "kubernetes",
          "io/revision]"] m from rfl]
  refine removeSub_cons_plain_patch "metadata" rfl rfl _ _ _ _ (fun nm => ?_)
  refine removeSub_cons_plain_patch "annotations[deployment" rfl rfl _ _ _ _ (fun nm => ?_)
  exact removeSub_cons_plain_patch "kubernetes" rfl rfl _ _ _ _ (fun nm => removeSub_single _ nm)

theorem rfbp_status (m : Doc) :
    removeFieldByPath m "status" = some (mapDelete m "status") := rfl

theorem rfbp_spec_clusterIP (m : Doc) : removeFieldByPath m "spec.clusterIP"
    = some (patchAt m "spec" (fun sp => mapDelete sp "clusterIP")) := by
  rw [show removeFieldByPath m "spec.clusterIP"
      = removeSub ["spec", "clusterIP"] m from rfl]
  exact removeSub_cons_plain_patch "spec" rfl rfl _ _ _ _ (fun nm => removeSub_single _ nm)

theorem rfbp_spec_clusterIPs (m : Doc) : removeFieldByPath m "spec.clusterIPs"
    = some (patchAt m "spec" (fun sp => mapDelete sp "clusterIPs")) := by
  rw [show removeFieldByPath m "spec.clusterIPs"
      = removeSub ["spec", "clusterIPs"] m from rfl]
  exact removeSub_cons_plain_patch "spec" rfl rfl _ _ _ _ (fun nm => removeSub_single _ nm)

theorem rfbp_spec_ports_nodePort (m : Doc) :
    removeFieldByPath m "spec.ports[].nodePort"
    = some (patchAt m "spec" patchPorts) := by
  rw [show removeFieldByPath m "spec.ports[].nodePort"
      = removeSub ["spec", "ports[]", "nodePort"] m from rfl]
  exact removeSub_cons_plain_patch "spec" rfl rfl _ _ _ _ removeSub_ports_wild

/-- The static strip pass never panics and equals its closed form. -/
theorem applyCustomStripFields_eq (m : Doc) :
    applyCustomStripFields m = some (stripAll m) := by
  show List.foldlM removeFieldByPath m staticStripFields = some (stripAll m)
  rw [show staticStripFields
      = ["metadata.uid", "metadata.selfLink", "metadata.resourceVersion",
         "metadata.generation", "metadata.creationTimestamp",
         "metadata.annotations[kubectl.kubernetes.io/last-applied-configuration]",
         "metadata.annotations[deployment.kubernetes.io/revision]",
         "status", "spec.clusterIP", "spec.clusterIPs", "spec.ports[].nodePort"]
      from rfl]
  simp only [List.foldlM_cons, List.foldlM_nil, rfbp_metadata_uid,
    rfbp_metadata_selfLink, rfbp_metadata_resourceVersion, rfbp_metadata_generation,
    rfbp_metadata_creationTimestamp, rfbp_annotations_kubectl, rfbp_annotations_revision,
    rfbp_status, rfbp_spec_clusterIP, rfbp_spec_clusterIPs, rfbp_spec_ports_nodePort,
    Option.bind_eq_bind, Option.some_bind]
  rfl

/-- The whole per-document pipeline in total, closed form. -/
theorem sanitizeDoc_eq (m : Doc) :
    sanitizeDoc m
      = some (stripAll (sanitizeStatus (sanitizeSpec (sanitizeMetadata m)))) :=
  applyCustomStripFields_eq _

/-! ## Lemmas: `patchAt`, `patchPorts` and stage characterizations -/

theorem mapGet_patchAt_ne (m : Doc) (a : String) (f : Doc → Doc) {k : String}
    (h : k ≠ a) : mapGet (patchAt m a f) k = mapGet m k := by
  unfold patchAt
  cases hma : mapGet m a with
  | none => rfl
  | some v =>
    cases v with
    | map md => exact mapGet_set_ne m _ h
    | str s => rfl
    | int n => rfl
    | bool b => rfl
    | null => rfl
    | arr l => rfl

theorem patchAt_get_map {m : Doc} {a : String} {md : Doc} (f : Doc → Doc)
    (h : mapGet m a = some (Val.map md)) :
    mapGet (patchAt m a f) a = some (Val.map (f md)) := by
  unfold patchAt
  rw [h]
  exact mapGet_set_self m a _

theorem patchAt_eq_of_get_none {m : Doc} {a : String} (f : Doc → Doc)
    (h : mapGet m a = none) : patchAt m a f = m := by
  unfold patchAt
  rw [h]

theorem patchAt_eq_of_get_nonmap {m : Doc} {a : String} {v : Val} (f : Doc → Doc)
    (h : mapGet m a = some v) (hv : ∀ md, v ≠ Val.map md) : patchAt m a f = m := by
  unfold patchAt
  rw [h]
  cases v with
  | map md => exact absurd rfl (hv md)
  | str s => rfl
  | int n => rfl
  | bool b => rfl
  | null => rfl
  | arr l => rfl

theorem patchAt_id {m : Doc} {a : String} {f : Doc → Doc}
    (h : ∀ md, mapGet m a = some (Val.map md) → f md = md) :
    patchAt m a f = m := by
  unfold patchAt
  cases hma : mapGet m a with
  | none => rfl
  | some v =>
    cases v with
    | map md =>
      show mapSet m a (Val.map (f md)) = m
      rw [h md hma]
      exact mapSet_of_get_some hma
    | str s => rfl
    | int n => rfl
    | bool b => rfl
    | null => rfl
    | arr l => rfl

theorem mapGet_patchPorts_ne (sp : Doc) {k : String} (h : k ≠ "ports") :
    mapGet (patchPorts sp) k = mapGet sp k := by
  unfold patchPorts
  cases hp : mapGet sp "ports" with
  | none => rfl
  | some v =>
    cases v with
    | arr items => exact mapGet_set_ne sp _ h
    | map md => rfl
    | str s => rfl
    | int n => rfl
    | bool b => rfl
    | null => rfl

theorem patchPorts_id {sp : Doc}
    (h : ∀ ps, mapGet sp "ports" = some (Val.arr ps) →
      ∀ pm, Val.map pm ∈ ps → mapGet pm "nodePort" = none) :
    patchPorts sp = sp := by
  unfold patchPorts
  cases hp : mapGet sp "ports" with
  | none => rfl
  | some v =>
    cases v with
    | arr items =>
      show mapSet sp "ports" (Val.arr (items.map _)) = sp
      rw [list_map_id_of (fun it hit => ?_)]
      · exact mapSet_of_get_some hp
      · cases it with
        | map im =>
          show Val.map (mapDelete im "nodePort") = Val.map im
          rw [mapDelete_of_get_none (h items hp im hit)]
        | str s => rfl
        | int n => rfl
        | bool b => rfl
        | null => rfl
        | arr l => rfl
    | map md => rfl
    | str s => rfl
    | int n => rfl
    | bool b => rfl
    | null => rfl

theorem getKind_patchAt (m : Doc) (a : String) (f : Doc → Doc)
    (h : a ≠ "kind") : getKind (patchAt m a f) = getKind m := by
  unfold getKind
  rw [mapGet_patchAt_ne m a f (fun e => h e.symm)]

theorem getKind_mapDelete (m : Doc) (k : String) (h : k ≠ "kind") :
    getKind (mapDelete m k) = getKind m := by
  unfold getKind
  rw [mapGet_delete_ne m (fun e => h e.symm)]

theorem getKind_mapSet (m : Doc) (k : String) (v : Val) (h : k ≠ "kind") :
    getKind (mapSet m k v) = getKind m := by
  unfold getKind
  rw [mapGet_set_ne m v (fun e => h e.symm)]

theorem sanitizeMetadata_of_get_map {x md : Doc}
    (h : mapGet x "metadata" = some (Val.map md)) :
    sanitizeMetadata x = mapSet x "metadata" (Val.map (mdProcess md)) := by
  unfold sanitizeMetadata
  rw [h]

theorem sanitizeMetadata_of_get_none {x : Doc}
    (h : mapGet x "metadata" = none) : sanitizeMetadata x = x := by
  unfold sanitizeMetadata
  rw [h]

theorem sanitizeMetadata_of_get_nonmap {x : Doc} {v : Val}
    (h : mapGet x "metadata" = some v) (hv : ∀ md, v ≠ Val.map md) :
    sanitizeMetadata x = x := by
  unfold sanitizeMetadata
  rw [h]
  cases v with
  | map md => exact absurd rfl (hv md)
  | str s => rfl
  | int n => rfl
  | bool b => rfl
  | null => rfl
  | arr l => rfl

theorem sanitizeMetadata_get_ne (x : Doc) {k : String} (h : k ≠ "metadata") :
    mapGet (sanitizeMetadata x) k = mapGet x k := by
  unfold sanitizeMetadata
  cases hmd : mapGet x "metadata" with
  | none => rfl
  | some v =>
    cases v with
    | map md => exact mapGet_set_ne x _ h
    | str s => rfl
    | int n => rfl
    | bool b => rfl
    | null => rfl
    | arr l => rfl

theorem sanitizeSpec_of_get_map {x sp : Doc}
    (h : mapGet x "spec" = some (Val.map sp)) :
    sanitizeSpec x = mapSet x "spec" (Val.map (spProcess (getKind x) sp)) := by
  unfold sanitizeSpec
  rw [h]

theorem sanitizeSpec_of_get_none {x : Doc} (h : mapGet x "spec" = none) :
    sanitizeSpec x = x := by
  unfold sanitizeSpec
  rw [h]

theorem sanitizeSpec_of_get_nonmap {x : Doc} {v : Val}
    (h : mapGet x "spec" = some v) (hv : ∀ md, v ≠ Val.map md) :
    sanitizeSpec x = x := by
  unfold sanitizeSpec
  rw [h]
  cases v with
  | map md => exact absurd rfl (hv md)
  | str s => rfl
  | int n => rfl
  | bool b => rfl
  | null => rfl
  | arr l => rfl

theorem sanitizeSpec_get_ne (x : Doc) {k : String} (h : k ≠ "spec") :
    mapGet (sanitizeSpec x) k = mapGet x k := by
  unfold sanitizeSpec
  cases hsp : mapGet x "spec" with
  | none => rfl
  | some v =>
    cases v with
    | map sp => exact mapGet_set_ne x _ h
    | str s => rfl
    | int n => rfl
    | bool b => rfl
    | null => rfl
    | arr l => rfl

theorem sanitizeStatus_get_ne (x : Doc) {k : String} (h : k ≠ "status") :
    mapGet (sanitizeStatus x) k = mapGet x k :=
  mapGet_delete_ne x h

/-! ## Lemmas: metadata fact preservation -/

theorem mdCore_delete {md : Doc} (h : mdCore md) (k : String) :
    mdCore (mapDelete md k) := by
  intro f hf
  by_cases hfk : f = k
  · rw [hfk]; exact mapGet_delete_self md k
  · rw [mapGet_delete_ne md hfk]; exact h f hf

theorem mdCore_set {md : Doc} (h : mdCore md) {k : String} (v : Val)
    (hk : k ∉ metadataFieldsToRemove) : mdCore (mapSet md k v) := by
  intro f hf
  rw [mapGet_set_ne md v (fun e => hk (by rw [← e]; exact hf))]
  exact h f hf

theorem mdCore_patchAt {md : Doc} (h : mdCore md) {a : String} (f : Doc → Doc)
    (ha : a ∉ metadataFieldsToRemove) : mdCore (patchAt md a f) := by
  intro k hk
  rw [mapGet_patchAt_ne md a f (fun e => ha (by rw [← e]; exact hk))]
  exact h k hk

theorem mdAnn_delete_ne {md : Doc} (h : mdAnn md) {k : String}
    (hk : k ≠ "annotations") : mdAnn (mapDelete md k) := by
  intro am ham
  rw [mapGet_delete_ne md (fun e => hk e.symm)] at ham
  exact h am ham

theorem mdAnn_patchAt_ne {md : Doc} (h : mdAnn md) {a : String} (f : Doc → Doc)
    (ha : a ≠ "annotations") : mdAnn (patchAt md a f) := by
  intro am ham
  rw [mapGet_patchAt_ne md a f (fun e => ha e.symm)] at ham
  exact h am ham

theorem mdLbl_delete_ne {md : Doc} (h : mdLbl md) {k : String}
    (hk : k ≠ "labels") : mdLbl (mapDelete md k) := by
  intro lm hlm
  rw [mapGet_delete_ne md (fun e => hk e.symm)] at hlm
  exact h lm hlm

theorem mdLbl_patchAt_ne {md : Doc} (h : mdLbl md) {a : String} (f : Doc → Doc)
    (ha : a ≠ "labels") : mdLbl (patchAt md a f) := by
  intro lm hlm
  rw [mapGet_patchAt_ne md a f (fun e => ha e.symm)] at hlm
  exact h lm hlm

theorem mdOrphan_delete_ne {md : Doc} {k1 k2 : String} (h : mdOrphan md k1 k2)
    {k : String} (hk : k ≠ k1) : mdOrphan (mapDelete md k) k1 k2 := by
  intro q r hq hr
  rw [mapGet_delete_ne md (fun e => hk e.symm)] at hq
  exact h q r hq hr

theorem mdOrphan_patchAt_ne {md : Doc} {k1 k2 : String} (h : mdOrphan md k1 k2)
    {a : String} (f : Doc → Doc) (ha : a ≠ k1) : mdOrphan (patchAt md a f) k1 k2 := by
  intro q r hq hr
  rw [mapGet_patchAt_ne md a f (fun e => ha e.symm)] at hq
  exact h q r hq hr

theorem mdOrphan_patch (md : Doc) (k1 k2 : String) :
    mdOrphan (patchAt md k1 (fun q => patchAt q "kubernetes"
      (fun r => mapDelete r k2))) k1 k2 := by
  intro q' r' hq hr
  cases hk1 : mapGet md k1 with
  | none =>
    rw [patchAt_eq_of_get_none _ hk1, hk1] at hq
    cases hq
  | some v =>
    cases v with
    | map q0 =>
      rw [patchAt_get_map _ hk1] at hq
      have hq' : patchAt q0 "kubernetes" (fun r => mapDelete r k2) = q' := by
        injection Option.some.inj hq
      subst hq'
      cases hkub : mapGet q0 "kubernetes" with
      | none =>
        rw [patchAt_eq_of_get_none _ hkub, hkub] at hr
        cases hr
      | some w =>
        cases w with
        | map r0 =>
          rw [patchAt_get_map _ hkub] at hr
          have hr' : mapDelete r0 k2 = r' := by injection Option.some.inj hr
          subst hr'
          exact mapGet_delete_self r0 k2
        | str s =>
          rw [patchAt_eq_of_get_nonmap _ hkub (fun _ e => Val.noConfusion e),
            hkub] at hr
          exact Val.noConfusion (Option.some.inj hr)
        | int n =>
          rw [patchAt_eq_of_get_nonmap _ hkub (fun _ e => Val.noConfusion e),
            hkub] at hr
          exact Val.noConfusion (Option.some.inj hr)
        | bool b =>
          rw [patchAt_eq_of_get_nonmap _ hkub (fun _ e => Val.noConfusion e),
            hkub] at hr
          exact Val.noConfusion (Option.some.inj hr)
        | null =>
          rw [patchAt_eq_of_get_nonmap _ hkub (fun _ e => Val.noConfusion e),
            hkub] at hr
          exact Val.noConfusion (Option.some.inj hr)
        | arr l =>
          rw [patchAt_eq_of_get_nonmap _ hkub (fun _ e => Val.noConfusion e),
            hkub] at hr
          exact Val.noConfusion (Option.some.inj hr)
    | str s =>
      rw [patchAt_eq_of_get_nonmap _ hk1 (fun _ e => Val.noConfusion e), hk1] at hq
      exact Val.noConfusion (Option.some.inj hq)
    | int n =>
      rw [patchAt_eq_of_get_nonmap _ hk1 (fun _ e => Val.noConfusion e), hk1] at hq
      exact Val.noConfusion (Option.some.inj hq)
    | bool b =>
      rw [patchAt_eq_of_get_nonmap _ hk1 (fun _ e => Val.noConfusion e), hk1] at hq
      exact Val.noConfusion (Option.some.inj hq)
    | null =>
      rw [patchAt_eq_of_get_nonmap _ hk1 (fun _ e => Val.noConfusion e), hk1] at hq
      exact Val.noConfusion (Option.some.inj hq)
    | arr l =>
      rw [patchAt_eq_of_get_nonmap _ hk1 (fun _ e => Val.noConfusion e), hk1] at hq
      exact Val.noConfusion (Option.some.inj hq)

theorem mdAnn_set_ne {md : Doc} (h : mdAnn md) {k : String} (v : Val)
    (hk : k ≠ "annotations") : mdAnn (mapSet md k v) := by
  intro am ham
  rw [mapGet_set_ne md v (fun e => hk e.symm)] at ham
  exact h am ham

theorem mdLbl_set_ne {md : Doc} (h : mdLbl md) {k : String} (v : Val)
    (hk : k ≠ "labels") : mdLbl (mapSet md k v) := by
  intro lm hlm
  rw [mapGet_set_ne md v (fun e => hk e.symm)] at hlm
  exact h lm hlm

theorem foldl_delete_id {ks : List String} {m : Doc}
    (h : ∀ k ∈ ks, mapGet m k = none) : ks.foldl mapDelete m = m := by
  induction ks with
  | nil => rfl
  | cons a ks ih =>
    rw [List.foldl_cons, mapDelete_of_get_none (h a (List.mem_cons_self a ks))]
    exact ih (fun k hk => h k (List.mem_cons_of_mem _ hk))

/-! ## Lemmas: the annotations and labels clauses -/

theorem mdAnnStep_core {md : Doc} (h : mdCore md) : mdCore (mdAnnStep md) := by
  unfold mdAnnStep
  cases ham : mapGet md "annotations" with
  | none => exact h
  | some v =>
    cases v with
    | map am0 =>
      show mdCore (if (mapDelete (mapDelete am0 lastAppliedKey) revisionKey).isEmpty
          = true then mapDelete md "annotations"
          else mapSet md "annotations"
            (Val.map (mapDelete (mapDelete am0 lastAppliedKey) revisionKey)))
      by_cases he : (mapDelete (mapDelete am0 lastAppliedKey) revisionKey).isEmpty = true
      · rw [if_pos he]; exact mdCore_delete h _
      · rw [if_neg he]; exact mdCore_set h _ (by decide)
    | str s => exact h
    | int n => exact h
    | bool b => exact h
    | null => exact h
    | arr l => exact h

theorem mdAnnStep_ann (md : Doc) : mdAnn (mdAnnStep md) := by
  unfold mdAnnStep
  cases ham : mapGet md "annotations" with
  | none =>
    intro am' h'
    rw [ham] at h'
    exact Option.noConfusion h'
  | some v =>
    cases v with
    | map am0 =>
      show mdAnn (if (mapDelete (mapDelete am0 lastAppliedKey) revisionKey).isEmpty
          = true then mapDelete md "annotations"
          else mapSet md "annotations"
            (Val.map (mapDelete (mapDelete am0 lastAppliedKey) revisionKey)))
      by_cases he : (mapDelete (mapDelete am0 lastAppliedKey) revisionKey).isEmpty = true
      · rw [if_pos he]
        intro am' h'
        rw [mapGet_delete_self] at h'
        exact Option.noConfusion h'
      · rw [if_neg he]
        intro am' h'
        rw [mapGet_set_self] at h'
        have ham' : mapDelete (mapDelete am0 lastAppliedKey) revisionKey = am' := by
          injection Option.some.inj h'
        subst ham'
        refine ⟨?_, mapGet_delete_self _ _, fun e => he (by rw [e]; rfl)⟩
        rw [mapGet_delete_ne _ (by decide : lastAppliedKey ≠ revisionKey)]
        exact mapGet_delete_self _ _
    | str s =>
      intro am' h'
      rw [ham] at h'
      exact Val.noConfusion (Option.some.inj h')
    | int n =>
      intro am' h'
      rw [ham] at h'
      exact Val.noConfusion (Option.some.inj h')
    | bool b =>
      intro am' h'
      rw [ham] at h'
      exact Val.noConfusion (Option.some.inj h')
    | null =>
      intro am' h'
      rw [ham] at h'
      exact Val.noConfusion (Option.some.inj h')
    | arr l =>
      intro am' h'
      rw [ham] at h'
      exact Val.noConfusion (Option.some.inj h')

theorem mdAnnStep_lbl {md : Doc} (h : mdLbl md) : mdLbl (mdAnnStep md) := by
  unfold mdAnnStep
  cases ham : mapGet md "annotations" with
  | none => exact h
  | some v =>
    cases v with
    | map am0 =>
      show mdLbl (if (mapDelete (mapDelete am0 lastAppliedKey) revisionKey).isEmpty
          = true then mapDelete md "annotations"
          else mapSet md "annotations"
            (Val.map (mapDelete (mapDelete am0 lastAppliedKey) revisionKey)))
      by_cases he : (mapDelete (mapDelete am0 lastAppliedKey) revisionKey).isEmpty = true
      · rw [if_pos he]; exact mdLbl_delete_ne h (by decide)
      · rw [if_neg he]; exact mdLbl_set_ne h _ (by decide)
    | str s => exact h
    | int n => exact h
    | bool b => exact h
    | null => exact h
    | arr l => exact h

theorem mdAnnStep_id {md : Doc} (h : mdAnn md) : mdAnnStep md = md := by
  unfold mdAnnStep
  cases ham : mapGet md "annotations" with
  | none => rfl
  | some v =>
    cases v with
    | map am0 =>
      obtain ⟨h1, h2, h3⟩ := h am0 ham
      show (if (mapDelete (mapDelete am0 lastAppliedKey) revisionKey).isEmpty
          = true then mapDelete md "annotations"
          else mapSet md "annotations"
            (Val.map (mapDelete (mapDelete am0 lastAppliedKey) revisionKey))) = md
      rw [mapDelete_of_get_none h1, mapDelete_of_get_none h2]
      have h5 : am0.isEmpty = false := by
        cases am0 with
        | nil => exact absurd rfl h3
        | cons a t => rfl
      rw [h5]
      exact mapSet_of_get_some ham
    | str s => rfl
    | int n => rfl
    | bool b => rfl
    | null => rfl
    | arr l => rfl

theorem mdLabelsStep_core {md : Doc} (h : mdCore md) : mdCore (mdLabelsStep md) := by
  unfold mdLabelsStep
  cases hlm : mapGet md "labels" with
  | none => exact h
  | some v =>
    cases v with
    | map lm0 =>
      show mdCore (if (mapDelete lm0 "pod-template-hash").isEmpty = true
          then mapDelete md "labels"
          else mapSet md "labels" (Val.map (mapDelete lm0 "pod-template-hash")))
      by_cases he : (mapDelete lm0 "pod-template-hash").isEmpty = true
      · rw [if_pos he]; exact mdCore_delete h _
      · rw [if_neg he]; exact mdCore_set h _ (by decide)
    | str s => exact h
    | int n => exact h
    | bool b => exact h
    | null => exact h
    | arr l => exact h

theorem mdLabelsStep_ann {md : Doc} (h : mdAnn md) : mdAnn (mdLabelsStep md) := by
  unfold mdLabelsStep
  cases hlm : mapGet md "labels" with
  | none => exact h
  | some v =>
    cases v with
    | map lm0 =>
      show mdAnn (if (mapDelete lm0 "pod-template-hash").isEmpty = true
          then mapDelete md "labels"
          else mapSet md "labels" (Val.map (mapDelete lm0 "pod-template-hash")))
      by_cases he : (mapDelete lm0 "pod-template-hash").isEmpty = true
      · rw [if_pos he]; exact mdAnn_delete_ne h (by decide)
      · rw [if_neg he]; exact mdAnn_set_ne h _ (by decide)
    | str s => exact h
    | int n => exact h
    | bool b => exact h
    | null => exact h
    | arr l => exact h

theorem mdLabelsStep_lbl (md : Doc) : mdLbl (mdLabelsStep md) := by
  unfold mdLabelsStep
  cases hlm : mapGet md "labels" with
  | none =>
    intro lm' h'
    rw [hlm] at h'
    exact Option.noConfusion h'
  | some v =>
    cases v with
    | map lm0 =>
      show mdLbl (if (mapDelete lm0 "pod-template-hash").isEmpty = true
          then mapDelete md "labels"
          else mapSet md "labels" (Val.map (mapDelete lm0 "pod-template-hash")))
      by_cases he : (mapDelete lm0 "pod-template-hash").isEmpty = true
      · rw [if_pos he]
        intro lm' h'
        rw [mapGet_delete_self] at h'
        exact Option.noConfusion h'
      · rw [if_neg he]
        intro lm' h'
        rw [mapGet_set_self] at h'
        have hlm' : mapDelete lm0 "pod-template-hash" = lm' := by
          injection Option.some.inj h'
        subst hlm'
        exact ⟨mapGet_delete_self _ _, fun e => he (by rw [e]; rfl)⟩
    | str s =>
      intro lm' h'
      rw [hlm] at h'
      exact Val.noConfusion (Option.some.inj h')
    | int n =>
      intro lm' h'
      rw [hlm] at h'
      exact Val.noConfusion (Option.some.inj h')
    | bool b =>
      intro lm' h'
      rw [hlm] at h'
      exact Val.noConfusion (Option.some.inj h')
    | null =>
      intro lm' h'
      rw [hlm] at h'
      exact Val.noConfusion (Option.some.inj h')
    | arr l =>
      intro lm' h'
      rw [hlm] at h'
      exact Val.noConfusion (Option.some.inj h')

theorem mdLabelsStep_id {md : Doc} (h : mdLbl md) : mdLabelsStep md = md := by
  unfold mdLabelsStep
  cases hlm : mapGet md "labels" with
  | none => rfl
  | some v =>
    cases v with
    | map lm0 =>
      obtain ⟨h1, h2⟩ := h lm0 hlm
      show (if (mapDelete lm0 "pod-template-hash").isEmpty = true
          then mapDelete md "labels"
          else mapSet md "labels" (Val.map (mapDelete lm0 "pod-template-hash"))) = md
      rw [mapDelete_of_get_none h1]
      have h5 : lm0.isEmpty = false := by
        cases lm0 with
        | nil => exact absurd rfl h2
        | cons a t => rfl
      rw [h5]
      exact mapSet_of_get_some hlm
    | str s => rfl
    | int n => rfl
    | bool b => rfl
    | null => rfl
    | arr l => rfl

theorem mdProcess_base (md : Doc) :
    mdCore (mdProcess md) ∧ mdAnn (mdProcess md) ∧ mdLbl (mdProcess md) := by
  have h0 : mdCore (metadataFieldsToRemove.foldl mapDelete md) :=
    fun f hf => mapGet_foldl_delete_of_mem md hf
  exact ⟨mdLabelsStep_core (mdAnnStep_core h0),
    mdLabelsStep_ann (mdAnnStep_ann _),
    mdLabelsStep_lbl _⟩

theorem mdProcess_id {md : Doc} (hc : mdCore md) (ha : mdAnn md) (hl : mdLbl md) :
    mdProcess md = md := by
  unfold mdProcess
  rw [foldl_delete_id (fun k hk => hc k hk), mdAnnStep_id ha, mdLabelsStep_id hl]

/-! ## Lemmas: the kind-specific spec clauses -/

theorem spService_id {kind : String} {sp : Doc}
    (hip : mapGet sp "clusterIP" = none) (hips : mapGet sp "clusterIPs" = none)
    (hports : ∀ ps, mapGet sp "ports" = some (Val.arr ps) →
      ∀ pm, Val.map pm ∈ ps → mapGet pm "nodePort" = none) :
    spService kind sp = sp := by
  unfold spService
  by_cases h1 : (kind == "Service") = true
  · rw [if_pos h1, mapDelete_of_get_none hip, mapDelete_of_get_none hips,
      patchPorts_id hports]
  · rw [if_neg h1]

theorem spPVC_id {kind : String} {sp : Doc}
    (h : kind = "PersistentVolumeClaim" →
      mapGet sp "volumeName" = none ∧ mapGet sp "volumeMode" = none) :
    spPVC kind sp = sp := by
  unfold spPVC
  by_cases h1 : (kind == "PersistentVolumeClaim") = true
  · obtain ⟨hn, hm⟩ := h (by exact eq_of_beq h1)
    rw [if_pos h1, mapDelete_of_get_none hn, mapDelete_of_get_none hm]
  · rw [if_neg h1]

theorem spPV_id {kind : String} {sp : Doc}
    (h : kind = "PersistentVolume" → mapGet sp "claimRef" = none) :
    spPV kind sp = sp := by
  unfold spPV
  by_cases h1 : (kind == "PersistentVolume") = true
  · rw [if_pos h1, mapDelete_of_get_none (h (by exact eq_of_beq h1))]
  · rw [if_neg h1]

theorem spProcess_id {kind : String} {sp : Doc}
    (hip : mapGet sp "clusterIP" = none) (hips : mapGet sp "clusterIPs" = none)
    (hports : ∀ ps, mapGet sp "ports" = some (Val.arr ps) →
      ∀ pm, Val.map pm ∈ ps → mapGet pm "nodePort" = none)
    (hpvc : kind = "PersistentVolumeClaim" →
      mapGet sp "volumeName" = none ∧ mapGet sp "volumeMode" = none)
    (hpv : kind = "PersistentVolume" → mapGet sp "claimRef" = none) :
    spProcess kind sp = sp := by
  unfold spProcess
  rw [spService_id hip hips hports, spPVC_id hpvc, spPV_id hpv]

theorem spProcess_kindfacts (kind : String) (sp : Doc) :
    (kind = "PersistentVolumeClaim" →
      mapGet (spProcess kind sp) "volumeName" = none ∧
      mapGet (spProcess kind sp) "volumeMode" = none) ∧
    (kind = "PersistentVolume" → mapGet (spProcess kind sp) "claimRef" = none) := by
  constructor
  · intro hk
    subst hk
    refine ⟨?_, ?_⟩
    · show mapGet (mapDelete (mapDelete sp "volumeName") "volumeMode") "volumeName"
        = none
      rw [mapGet_delete_ne _ (by decide : "volumeName" ≠ "volumeMode")]
      exact mapGet_delete_self _ _
    · show mapGet (mapDelete (mapDelete sp "volumeName") "volumeMode") "volumeMode"
        = none
      exact mapGet_delete_self _ _
  · intro hk
    subst hk
    show mapGet (mapDelete sp "claimRef") "claimRef" = none
    exact mapGet_delete_self _ _

/-! ## Lemmas: the strip groups -/

theorem patchPorts_eq_of_none {sp : Doc} (h : mapGet sp "ports" = none) :
    patchPorts sp = sp := by
  unfold patchPorts
  rw [h]

theorem patchPorts_eq_of_nonarr {sp : Doc} {v : Val}
    (h : mapGet sp "ports" = some v) (hv : ∀ l, v ≠ Val.arr l) :
    patchPorts sp = sp := by
  unfold patchPorts
  rw [h]
  cases v with
  | arr l => exact absurd rfl (hv l)
  | map md => rfl
  | str s => rfl
  | int n => rfl
  | bool b => rfl
  | null => rfl

theorem patchPorts_get_arr {sp : Doc} {items : List Val}
    (h : mapGet sp "ports" = some (Val.arr items)) :
    mapGet (patchPorts sp) "ports" = some (Val.arr (items.map (fun item =>
      match item with
      | Val.map im => Val.map (mapDelete im "nodePort")
      | other => other))) := by
  unfold patchPorts
  rw [h]
  exact mapGet_set_self sp "ports" _

theorem stripMetaFields_get_ne (m : Doc) {k : String} (h : k ≠ "metadata") :
    mapGet (stripMetaFields m) k = mapGet m k := by
  unfold stripMetaFields
  rw [mapGet_patchAt_ne _ _ _ h, mapGet_patchAt_ne _ _ _ h, mapGet_patchAt_ne _ _ _ h,
    mapGet_patchAt_ne _ _ _ h, mapGet_patchAt_ne _ _ _ h]

theorem stripMetaFields_eq_of_none {m : Doc} (h : mapGet m "metadata" = none) :
    stripMetaFields m = m := by
  unfold stripMetaFields
  rw [patchAt_eq_of_get_none _ h, patchAt_eq_of_get_none _ h,
    patchAt_eq_of_get_none _ h, patchAt_eq_of_get_none _ h,
    patchAt_eq_of_get_none _ h]

theorem stripMetaFields_eq_of_nonmap {m : Doc} {v : Val}
    (h : mapGet m "metadata" = some v) (hv : ∀ md, v ≠ Val.map md) :
    stripMetaFields m = m := by
  unfold stripMetaFields
  rw [patchAt_eq_of_get_nonmap _ h hv, patchAt_eq_of_get_nonmap _ h hv,
    patchAt_eq_of_get_nonmap _ h hv, patchAt_eq_of_get_nonmap _ h hv,
    patchAt_eq_of_get_nonmap _ h hv]

theorem stripMetaFields_get_map {m md : Doc}
    (h : mapGet m "metadata" = some (Val.map md)) :
    mapGet (stripMetaFields m) "metadata" = some (Val.map
      (mapDelete (mapDelete (mapDelete (mapDelete (mapDelete md "uid")
        "selfLink") "resourceVersion") "generation") "creationTimestamp")) := by
  unfold stripMetaFields
  exact patchAt_get_map _ (patchAt_get_map _ (patchAt_get_map _
    (patchAt_get_map _ (patchAt_get_map _ h))))

theorem stripOrphans_get_ne (m : Doc) {k : String} (h : k ≠ "metadata") :
    mapGet (stripOrphans m) k = mapGet m k := by
  unfold stripOrphans
  rw [mapGet_patchAt_ne _ _ _ h, mapGet_patchAt_ne _ _ _ h]

theorem stripOrphans_eq_of_none {m : Doc} (h : mapGet m "metadata" = none) :
    stripOrphans m = m := by
  unfold stripOrphans
  rw [patchAt_eq_of_get_none _ h, patchAt_eq_of_get_none _ h]

theorem stripOrphans_eq_of_nonmap {m : Doc} {v : Val}
    (h : mapGet m "metadata" = some v) (hv : ∀ md, v ≠ Val.map md) :
    stripOrphans m = m := by
  unfold stripOrphans
  rw [patchAt_eq_of_get_nonmap _ h hv, patchAt_eq_of_get_nonmap _ h hv]

theorem stripOrphans_get_map {m md : Doc}
    (h : mapGet m "metadata" = some (Val.map md)) :
    mapGet (stripOrphans m) "metadata" = some (Val.map
      (patchAt (patchAt md "annotations[kubectl"
          (fun q => patchAt q "kubernetes"
            (fun r => mapDelete r "io/last-applied-configuration]")))
        "annotations[deployment"
        (fun q => patchAt q "kubernetes" (fun r => mapDelete r "io/revision]")))) := by
  unfold stripOrphans
  exact patchAt_get_map _ (patchAt_get_map _ h)

theorem stripSpecIPs_get_ne (m : Doc) {k : String} (h : k ≠ "spec") :
    mapGet (stripSpecIPs m) k = mapGet m k := by
  unfold stripSpecIPs
  rw [mapGet_patchAt_ne _ _ _ h, mapGet_patchAt_ne _ _ _ h, mapGet_patchAt_ne _ _ _ h]

theorem stripSpecIPs_eq_of_none {m : Doc} (h : mapGet m "spec" = none) :
    stripSpecIPs m = m := by
  unfold stripSpecIPs
  rw [patchAt_eq_of_get_none _ h, patchAt_eq_of_get_none _ h,
    patchAt_eq_of_get_none _ h]

theorem stripSpecIPs_eq_of_nonmap {m : Doc} {v : Val}
    (h : mapGet m "spec" = some v) (hv : ∀ md, v ≠ Val.map md) :
    stripSpecIPs m = m := by
  unfold stripSpecIPs
  rw [patchAt_eq_of_get_nonmap _ h hv, patchAt_eq_of_get_nonmap _ h hv,
    patchAt_eq_of_get_nonmap _ h hv]

theorem stripSpecIPs_get_map {m sp : Doc} (h : mapGet m "spec" = some (Val.map sp)) :
    mapGet (stripSpecIPs m) "spec" = some (Val.map
      (patchPorts (mapDelete (mapDelete sp "clusterIP") "clusterIPs"))) := by
  unfold stripSpecIPs
  exact patchAt_get_map _ (patchAt_get_map _ (patchAt_get_map _ h))

theorem getKind_stripSpecIPs (m : Doc) : getKind (stripSpecIPs m) = getKind m := by
  unfold getKind
  rw [stripSpecIPs_get_ne _ (by decide)]

theorem stripAll_get_status (m : Doc) : mapGet (stripAll m) "status" = none := by
  unfold stripAll
  rw [stripSpecIPs_get_ne _ (by decide)]
  exact mapGet_delete_self _ _

/-! ## Lemmas: forward invariant establishment -/

theorem docMdBase_congr {m m' : Doc}
    (h : mapGet m' "metadata" = mapGet m "metadata") (hb : docMdBase m) :
    docMdBase m' :=
  fun md hmd => hb md (by rw [← h]; exact hmd)

theorem docMdBase_sanitizeMetadata (x : Doc) : docMdBase (sanitizeMetadata x) := by
  intro md' hmd'
  cases hx : mapGet x "metadata" with
  | none =>
    rw [sanitizeMetadata_of_get_none hx, hx] at hmd'
    exact Option.noConfusion hmd'
  | some v =>
    cases v with
    | map md0 =>
      rw [sanitizeMetadata_of_get_map hx, mapGet_set_self] at hmd'
      have he : mdProcess md0 = md' := by injection Option.some.inj hmd'
      subst he
      exact mdProcess_base md0
    | str s =>
      rw [sanitizeMetadata_of_get_nonmap hx (fun _ e => Val.noConfusion e), hx] at hmd'
      exact Val.noConfusion (Option.some.inj hmd')
    | int n =>
      rw [sanitizeMetadata_of_get_nonmap hx (fun _ e => Val.noConfusion e), hx] at hmd'
      exact Val.noConfusion (Option.some.inj hmd')
    | bool b =>
      rw [sanitizeMetadata_of_get_nonmap hx (fun _ e => Val.noConfusion e), hx] at hmd'
      exact Val.noConfusion (Option.some.inj hmd')
    | null =>
      rw [sanitizeMetadata_of_get_nonmap hx (fun _ e => Val.noConfusion e), hx] at hmd'
      exact Val.noConfusion (Option.some.inj hmd')
    | arr l =>
      rw [sanitizeMetadata_of_get_nonmap hx (fun _ e => Val.noConfusion e), hx] at hmd'
      exact Val.noConfusion (Option.some.inj hmd')

theorem docMdBase_stripAll {m : Doc} (hb : docMdBase m) : docMdBase (stripAll m) := by
  intro md' hmd'
  have hred : mapGet (stripAll m) "metadata"
      = mapGet (stripOrphans (stripMetaFields m)) "metadata" := by
    unfold stripAll
    rw [stripSpecIPs_get_ne _ (by decide), mapGet_delete_ne _ (by decide)]
  rw [hred] at hmd'
  cases hx : mapGet m "metadata" with
  | none =>
    rw [stripMetaFields_eq_of_none hx, stripOrphans_eq_of_none hx, hx] at hmd'
    exact Option.noConfusion hmd'
  | some v =>
    cases v with
    | map md0 =>
      rw [stripOrphans_get_map (stripMetaFields_get_map hx)] at hmd'
      have he : patchAt (patchAt (mapDelete (mapDelete (mapDelete (mapDelete
          (mapDelete md0 "uid") "selfLink") "resourceVersion") "generation")
          "creationTimestamp") "annotations[kubectl"
            (fun q => patchAt q "kubernetes"
              (fun r => mapDelete r "io/last-applied-configuration]")))
          "annotations[deployment"
            (fun q => patchAt q "kubernetes" (fun r => mapDelete r "io/revision]"))
          = md' := by injection Option.some.inj hmd'
      subst he
      obtain ⟨hc, ha, hl⟩ := hb md0 hx
      have hc5 : mdCore (mapDelete (mapDelete (mapDelete (mapDelete
          (mapDelete md0 "uid") "selfLink") "resourceVersion") "generation")
          "creationTimestamp") :=
        mdCore_delete (mdCore_delete (mdCore_delete (mdCore_delete
          (mdCore_delete hc _) _) _) _) _
      have ha5 : mdAnn (mapDelete (mapDelete (mapDelete (mapDelete
          (mapDelete md0 "uid") "selfLink") "resourceVersion") "generation")
          "creationTimestamp") :=
        mdAnn_delete_ne (mdAnn_delete_ne (mdAnn_delete_ne (mdAnn_delete_ne
          (mdAnn_delete_ne ha (by decide)) (by decide)) (by decide)) (by decide))
          (by decide)
      have hl5 : mdLbl (mapDelete (mapDelete (mapDelete (mapDelete
          (mapDelete md0 "uid") "selfLink") "resourceVersion") "generation")
          "creationTimestamp") :=
        mdLbl_delete_ne (mdLbl_delete_ne (mdLbl_delete_ne (mdLbl_delete_ne
          (mdLbl_delete_ne hl (by decide)) (by decide)) (by decide)) (by decide))
          (by decide)
      exact ⟨mdCore_patchAt (mdCore_patchAt hc5 _ (by decide)) _ (by decide),
        mdAnn_patchAt_ne (mdAnn_patchAt_ne ha5 _ (by decide)) _ (by decide),
        mdLbl_patchAt_ne (mdLbl_patchAt_ne hl5 _ (by decide)) _ (by decide)⟩
    | str s =>
      rw [stripMetaFields_eq_of_nonmap hx (fun _ e => Val.noConfusion e),
        stripOrphans_eq_of_nonmap hx (fun _ e => Val.noConfusion e), hx] at hmd'
      exact Val.noConfusion (Option.some.inj hmd')
    | int n =>
      rw [stripMetaFields_eq_of_nonmap hx (fun _ e => Val.noConfusion e),
        stripOrphans_eq_of_nonmap hx (fun _ e => Val.noConfusion e), hx] at hmd'
      exact Val.noConfusion (Option.some.inj hmd')
    | bool b =>
      rw [stripMetaFields_eq_of_nonmap hx (fun _ e => Val.noConfusion e),
        stripOrphans_eq_of_nonmap hx (fun _ e => Val.noConfusion e), hx] at hmd'
      exact Val.noConfusion (Option.some.inj hmd')
    | null =>
      rw [stripMetaFields_eq_of_nonmap hx (fun _ e => Val.noConfusion e),
        stripOrphans_eq_of_nonmap hx (fun _ e => Val.noConfusion e), hx] at hmd'
      exact Val.noConfusion (Option.some.inj hmd')
    | arr l =>
      rw [stripMetaFields_eq_of_nonmap hx (fun _ e => Val.noConfusion e),
        stripOrphans_eq_of_nonmap hx (fun _ e => Val.noConfusion e), hx] at hmd'
      exact Val.noConfusion (Option.some.inj hmd')

theorem docMdOrphans_stripAll (m : Doc) : docMdOrphans (stripAll m) := by
  intro md' hmd'
  have hred : mapGet (stripAll m) "metadata"
      = mapGet (stripOrphans (stripMetaFields m)) "metadata" := by
    unfold stripAll
    rw [stripSpecIPs_get_ne _ (by decide), mapGet_delete_ne _ (by decide)]
  rw [hred] at hmd'
  cases hx : mapGet m "metadata" with
  | none =>
    rw [stripMetaFields_eq_of_none hx, stripOrphans_eq_of_none hx, hx] at hmd'
    exact Option.noConfusion hmd'
  | some v =>
    cases v with
    | map md0 =>
      rw [stripOrphans_get_map (stripMetaFields_get_map hx)] at hmd'
      have he : patchAt (patchAt (mapDelete (mapDelete (mapDelete (mapDelete
          (mapDelete md0 "uid") "selfLink") "resourceVersion") "generation")
          "creationTimestamp") "annotations[kubectl"
            (fun q => patchAt q "kubernetes"
              (fun r => mapDelete r "io/last-applied-configuration]")))
          "annotations[deployment"
            (fun q => patchAt q "kubernetes" (fun r => mapDelete r "io/revision]"))
          = md' := by injection Option.some.inj hmd'
      subst he
      exact ⟨mdOrphan_patchAt_ne (mdOrphan_patch _ _ _) _ (by decide),
        mdOrphan_patch _ _ _⟩
    | str s =>
      rw [stripMetaFields_eq_of_nonmap hx (fun _ e => Val.noConfusion e),
        stripOrphans_eq_of_nonmap hx (fun _ e => Val.noConfusion e), hx] at hmd'
      exact Val.noConfusion (Option.some.inj hmd')
    | int n =>
      rw [stripMetaFields_eq_of_nonmap hx (fun _ e => Val.noConfusion e),
        stripOrphans_eq_of_nonmap hx (fun _ e => Val.noConfusion e), hx] at hmd'
      exact Val.noConfusion (Option.some.inj hmd')
    | bool b =>
      rw [stripMetaFields_eq_of_nonmap hx (fun _ e => Val.noConfusion e),
        stripOrphans_eq_of_nonmap hx (fun _ e => Val.noConfusion e), hx] at hmd'
      exact Val.noConfusion (Option.some.inj hmd')
    | null =>
      rw [stripMetaFields_eq_of_nonmap hx (fun _ e => Val.noConfusion e),
        stripOrphans_eq_of_nonmap hx (fun _ e => Val.noConfusion e), hx] at hmd'
      exact Val.noConfusion (Option.some.inj hmd')
    | arr l =>
      rw [stripMetaFields_eq_of_nonmap hx (fun _ e => Val.noConfusion e),
        stripOrphans_eq_of_nonmap hx (fun _ e => Val.noConfusion e), hx] at hmd'
      exact Val.noConfusion (Option.some.inj hmd')

theorem docSpecIPs_stripSpecIPs (m : Doc) : docSpecIPs (stripSpecIPs m) := by
  intro sp hsp
  cases hx : mapGet m "spec" with
  | none =>
    rw [stripSpecIPs_eq_of_none hx, hx] at hsp
    exact Option.noConfusion hsp
  | some v =>
    cases v with
    | map sp0 =>
      rw [stripSpecIPs_get_map hx] at hsp
      have he : patchPorts (mapDelete (mapDelete sp0 "clusterIP") "clusterIPs")
          = sp := by injection Option.some.inj hsp
      subst he
      refine ⟨?_, ?_, ?_⟩
      · rw [mapGet_patchPorts_ne _ (by decide),
          mapGet_delete_ne _ (by decide : "clusterIP" ≠ "clusterIPs")]
        exact mapGet_delete_self _ _
      · rw [mapGet_patchPorts_ne _ (by decide)]
        exact mapGet_delete_self _ _
      · intro ps hps pm hpm
        cases hpp : mapGet (mapDelete (mapDelete sp0 "clusterIP") "clusterIPs")
            "ports" with
        | none =>
          rw [patchPorts_eq_of_none hpp, hpp] at hps
          exact Option.noConfusion hps
        | some w =>
          cases w with
          | arr items =>
            rw [patchPorts_get_arr hpp] at hps
            have he2 : items.map (fun item =>
                match item with
                | Val.map im => Val.map (mapDelete im "nodePort")
                | other => other) = ps := by injection Option.some.inj hps
            subst he2
            obtain ⟨it, hit, hgit⟩ := List.mem_map.mp hpm
            cases it with
            | map im =>
              have hpm' : mapDelete im "nodePort" = pm := by injection hgit
              subst hpm'
              exact mapGet_delete_self _ _
            | str s => exact Val.noConfusion hgit
            | int n => exact Val.noConfusion hgit
            | bool b => exact Val.noConfusion hgit
            | null => exact Val.noConfusion hgit
            | arr l => exact Val.noConfusion hgit
          | map mm =>
            rw [patchPorts_eq_of_nonarr hpp (fun _ e => Val.noConfusion e),
              hpp] at hps
            exact Val.noConfusion (Option.some.inj hps)
          | str s =>
            rw [patchPorts_eq_of_nonarr hpp (fun _ e => Val.noConfusion e),
              hpp] at hps
            exact Val.noConfusion (Option.some.inj hps)
          | int n =>
            rw [patchPorts_eq_of_nonarr hpp (fun _ e => Val.noConfusion e),
              hpp] at hps
            exact Val.noConfusion (Option.some.inj hps)
          | bool b =>
            rw [patchPorts_eq_of_nonarr hpp (fun _ e => Val.noConfusion e),
              hpp] at hps
            exact Val.noConfusion (Option.some.inj hps)
          | null =>
            rw [patchPorts_eq_of_nonarr hpp (fun _ e => Val.noConfusion e),
              hpp] at hps
            exact Val.noConfusion (Option.some.inj hps)
    | str s =>
      rw [stripSpecIPs_eq_of_nonmap hx (fun _ e => Val.noConfusion e), hx] at hsp
      exact Val.noConfusion (Option.some.inj hsp)
    | int n =>
      rw [stripSpecIPs_eq_of_nonmap hx (fun _ e => Val.noConfusion e), hx] at hsp
      exact Val.noConfusion (Option.some.inj hsp)
    | bool b =>
      rw [stripSpecIPs_eq_of_nonmap hx (fun _ e => Val.noConfusion e), hx] at hsp
      exact Val.noConfusion (Option.some.inj hsp)
    | null =>
      rw [stripSpecIPs_eq_of_nonmap hx (fun _ e => Val.noConfusion e), hx] at hsp
      exact Val.noConfusion (Option.some.inj hsp)
    | arr l =>
      rw [stripSpecIPs_eq_of_nonmap hx (fun _ e => Val.noConfusion e), hx] at hsp
      exact Val.noConfusion (Option.some.inj hsp)

theorem docSpecKinds_congr {m m' : Doc} (hs : mapGet m' "spec" = mapGet m "spec")
    (hk : getKind m' = getKind m) (h : docSpecKinds m) : docSpecKinds m' := by
  intro sp hsp
  have hfacts := h sp (by rw [← hs]; exact hsp)
  exact ⟨fun hp => hfacts.1 (by rw [← hk]; exact hp),
    fun hp => hfacts.2 (by rw [← hk]; exact hp)⟩

theorem docSpecKinds_sanitizeSpec (x : Doc) : docSpecKinds (sanitizeSpec x) := by
  intro sp hsp
  cases hx : mapGet x "spec" with
  | none =>
    rw [sanitizeSpec_of_get_none hx, hx] at hsp
    exact Option.noConfusion hsp
  | some v =>
    cases v with
    | map sp0 =>
      have hkind : getKind (sanitizeSpec x) = getKind x := by
        rw [sanitizeSpec_of_get_map hx]
        exact getKind_mapSet x _ _ (by decide)
      rw [sanitizeSpec_of_get_map hx, mapGet_set_self] at hsp
      have he : spProcess (getKind x) sp0 = sp := by injection Option.some.inj hsp
      subst he
      exact ⟨fun hp => (spProcess_kindfacts (getKind x) sp0).1
          (by rw [← hkind]; exact hp),
        fun hp => (spProcess_kindfacts (getKind x) sp0).2
          (by rw [← hkind]; exact hp)⟩
    | str s =>
      rw [sanitizeSpec_of_get_nonmap hx (fun _ e => Val.noConfusion e), hx] at hsp
      exact Val.noConfusion (Option.some.inj hsp)
    | int n =>
      rw [sanitizeSpec_of_get_nonmap hx (fun _ e => Val.noConfusion e), hx] at hsp
      exact Val.noConfusion (Option.some.inj hsp)
    | bool b =>
      rw [sanitizeSpec_of_get_nonmap hx (fun _ e => Val.noConfusion e), hx] at hsp
      exact Val.noConfusion (Option.some.inj hsp)
    | null =>
      rw [sanitizeSpec_of_get_nonmap hx (fun _ e => Val.noConfusion e), hx] at hsp
      exact Val.noConfusion (Option.some.inj hsp)
    | arr l =>
      rw [sanitizeSpec_of_get_nonmap hx (fun _ e => Val.noConfusion e), hx] at hsp
      exact Val.noConfusion (Option.some.inj hsp)

theorem docSpecKinds_stripAll {m : Doc} (h : docSpecKinds m) :
    docSpecKinds (stripAll m) := by
  have h8 : docSpecKinds (mapDelete (stripOrphans (stripMetaFields m)) "status") := by
    refine docSpecKinds_congr ?_ ?_ h
    · rw [mapGet_delete_ne _ (by decide), stripOrphans_get_ne _ (by decide),
        stripMetaFields_get_ne _ (by decide)]
    · unfold getKind
      rw [mapGet_delete_ne _ (by decide), stripOrphans_get_ne _ (by decide),
        stripMetaFields_get_ne _ (by decide)]
  show docSpecKinds (stripSpecIPs _)
  intro sp hsp
  cases hx : mapGet (mapDelete (stripOrphans (stripMetaFields m)) "status")
      "spec" with
  | none =>
    rw [stripSpecIPs_eq_of_none hx, hx] at hsp
    exact Option.noConfusion hsp
  | some v =>
    cases v with
    | map sp0 =>
      rw [stripSpecIPs_get_map hx] at hsp
      have he : patchPorts (mapDelete (mapDelete sp0 "clusterIP") "clusterIPs")
          = sp := by injection Option.some.inj hsp
      subst he
      have hkind := getKind_stripSpecIPs
        (mapDelete (stripOrphans (stripMetaFields m)) "status")
      have hfacts := h8 sp0 hx
      constructor
      · intro hp
        obtain ⟨hn, hm⟩ := hfacts.1 (by rw [← hkind]; exact hp)
        constructor
        · rw [mapGet_patchPorts_ne _ (by decide), mapGet_delete_ne _ (by decide),
            mapGet_delete_ne _ (by decide)]
          exact hn
        · rw [mapGet_patchPorts_ne _ (by decide), mapGet_delete_ne _ (by decide),
            mapGet_delete_ne _ (by decide)]
          exact hm
      · intro hp
        have hcr := hfacts.2 (by rw [← hkind]; exact hp)
        rw [mapGet_patchPorts_ne _ (by decide), mapGet_delete_ne _ (by decide),
          mapGet_delete_ne _ (by decide)]
        exact hcr
    | str s =>
      rw [stripSpecIPs_eq_of_nonmap hx (fun _ e => Val.noConfusion e), hx] at hsp
      exact Val.noConfusion (Option.some.inj hsp)
    | int n =>
      rw [stripSpecIPs_eq_of_nonmap hx (fun _ e => Val.noConfusion e), hx] at hsp
      exact Val.noConfusion (Option.some.inj hsp)
    | bool b =>
      rw [stripSpecIPs_eq_of_nonmap hx (fun _ e => Val.noConfusion e), hx] at hsp
      exact Val.noConfusion (Option.some.inj hsp)
    | null =>
      rw [stripSpecIPs_eq_of_nonmap hx (fun _ e => Val.noConfusion e), hx] at hsp
      exact Val.noConfusion (Option.some.inj hsp)
    | arr l =>
      rw [stripSpecIPs_eq_of_nonmap hx (fun _ e => Val.noConfusion e), hx] at hsp
      exact Val.noConfusion (Option.some.inj hsp)

/-! ## Lemmas: sanitized documents are fixed points -/

theorem stripMetaFields_id {m : Doc} (hb : docMdBase m) : stripMetaFields m = m := by
  unfold stripMetaFields
  rw [patchAt_id (fun md hmd =>
      mapDelete_of_get_none ((hb md hmd).1 "uid" (by decide))),
    patchAt_id (fun md hmd =>
      mapDelete_of_get_none ((hb md hmd).1 "selfLink" (by decide))),
    patchAt_id (fun md hmd =>
      mapDelete_of_get_none ((hb md hmd).1 "resourceVersion" (by decide))),
    patchAt_id (fun md hmd =>
      mapDelete_of_get_none ((hb md hmd).1 "generation" (by decide))),
    patchAt_id (fun md hmd =>
      mapDelete_of_get_none ((hb md hmd).1 "creationTimestamp" (by decide)))]

theorem stripOrphans_id {m : Doc} (ho : docMdOrphans m) : stripOrphans m = m := by
  unfold stripOrphans
  rw [patchAt_id (fun md hmd => patchAt_id (fun q hq => patchAt_id (fun r hr =>
      mapDelete_of_get_none ((ho md hmd).1 q r hq hr)))),
    patchAt_id (fun md hmd => patchAt_id (fun q hq => patchAt_id (fun r hr =>
      mapDelete_of_get_none ((ho md hmd).2 q r hq hr))))]

theorem stripSpecIPs_id {m : Doc} (hips : docSpecIPs m) : stripSpecIPs m = m := by
  unfold stripSpecIPs
  rw [patchAt_id (fun sp hsp => mapDelete_of_get_none ((hips sp hsp).1)),
    patchAt_id (fun sp hsp => mapDelete_of_get_none ((hips sp hsp).2.1)),
    patchAt_id (fun sp hsp => patchPorts_id ((hips sp hsp).2.2))]

theorem sanitizeDoc_fix {y : Doc} (h : sanitizedInv y) : sanitizeDoc y = some y := by
  obtain ⟨hbase, horph, hips, hkinds, hstat⟩ := h
  have h1 : sanitizeMetadata y = y := by
    cases hy : mapGet y "metadata" with
    | none => exact sanitizeMetadata_of_get_none hy
    | some v =>
      cases v with
      | map md =>
        rw [sanitizeMetadata_of_get_map hy]
        obtain ⟨hc, ha, hl⟩ := hbase md hy
        rw [mdProcess_id hc ha hl]
        exact mapSet_of_get_some hy
      | str s => exact sanitizeMetadata_of_get_nonmap hy (fun _ e => Val.noConfusion e)
      | int n => exact sanitizeMetadata_of_get_nonmap hy (fun _ e => Val.noConfusion e)
      | bool b => exact sanitizeMetadata_of_get_nonmap hy (fun _ e => Val.noConfusion e)
      | null => exact sanitizeMetadata_of_get_nonmap hy (fun _ e => Val.noConfusion e)
      | arr l => exact sanitizeMetadata_of_get_nonmap hy (fun _ e => Val.noConfusion e)
  have h2 : sanitizeSpec y = y := by
    cases hy : mapGet y "spec" with
    | none => exact sanitizeSpec_of_get_none hy
    | some v =>
      cases v with
      | map sp =>
        rw [sanitizeSpec_of_get_map hy]
        obtain ⟨hip, hips2, hports⟩ := hips sp hy
        obtain ⟨hpvc, hpv⟩ := hkinds sp hy
        rw [spProcess_id hip hips2 hports hpvc hpv]
        exact mapSet_of_get_some hy
      | str s => exact sanitizeSpec_of_get_nonmap hy (fun _ e => Val.noConfusion e)
      | int n => exact sanitizeSpec_of_get_nonmap hy (fun _ e => Val.noConfusion e)
      | bool b => exact sanitizeSpec_of_get_nonmap hy (fun _ e => Val.noConfusion e)
      | null => exact sanitizeSpec_of_get_nonmap hy (fun _ e => Val.noConfusion e)
      | arr l => exact sanitizeSpec_of_get_nonmap hy (fun _ e => Val.noConfusion e)
  have h3 : sanitizeStatus y = y := mapDelete_of_get_none hstat
  have h4 : stripAll y = y := by
    unfold stripAll
    rw [stripMetaFields_id hbase, stripOrphans_id horph,
      mapDelete_of_get_none hstat, stripSpecIPs_id hips]
  rw [sanitizeDoc_eq, h1, h2, h3, h4]

theorem sanitizedInv_of_sanitizeDoc {x y : Doc} (h : sanitizeDoc x = some y) :
    sanitizedInv y := by
  rw [sanitizeDoc_eq] at h
  have he := Option.some.inj h
  subst he
  refine ⟨?_, docMdOrphans_stripAll _, ?_, ?_, stripAll_get_status _⟩
  · apply docMdBase_stripAll
    apply docMdBase_congr ?_ (docMdBase_sanitizeMetadata x)
    rw [sanitizeStatus_get_ne _ (by decide), sanitizeSpec_get_ne _ (by decide)]
  · show docSpecIPs (stripSpecIPs _)
    exact docSpecIPs_stripSpecIPs _
  · apply docSpecKinds_stripAll
    refine docSpecKinds_congr ?_ ?_ (docSpecKinds_sanitizeSpec (sanitizeMetadata x))
    · exact sanitizeStatus_get_ne _ (by decide)
    · unfold getKind
      rw [sanitizeStatus_get_ne _ (by decide)]

/-! ## Claim theorems -/

/-- C3: for every kind name and every configuration of include/exclude kind
lists, membership of the kind name in the exclude list implies the selector
rejects it, regardless of the include list's contents. -/
theorem c3_exclude_wins (cfg : KubernetesConfig) (kindName : String)
    (h : kindName ∈ cfg.excludeResources) :
    shouldIncludeResource cfg kindName = false := by
  unfold shouldIncludeResource
  rw [if_pos]
  exact (List.elem_eq_true_of_mem h : _)

/-- Witness for C3: `pods` is rejected even though it is also included. -/
theorem c3_exclude_wins_witness :
    shouldIncludeResource ⟨["pods"], ["pods"], [], []⟩ "pods" = false :=
  c3_exclude_wins ⟨["pods"], ["pods"], [], []⟩ "pods" (List.mem_cons_self _ _)

/-- C5 (code evaluated at the failing input): the bracketed-key strip path
`a.b[k]` on a document with key `k` in the map at `a.b` leaves the document
unchanged — the code deletes the literal key `b[k]` from the map at `a`
instead of the key `k` from the map at `a.b`, because the bracketed-segment
branch only runs for non-final path segments. -/
theorem c5_bracket_final_segment_noop :
    removeFieldByPath [("a", Val.map [("b", Val.map [("k", Val.str "v")])])] "a.b[k]"
      = some [("a", Val.map [("b", Val.map [("k", Val.str "v")])])] := rfl

/-- C7: the Service record `(v1, Service, "default", "web")` with
`spec.clusterIP` and `spec.ports[0].nodePort` sanitizes to a document with no
`clusterIP` and no `nodePort` under `ports[0]`, and its file path is
`namespaces/default/service/web.yaml`. -/
theorem c7_service_scenario :
    sanitizeResource ⟨"v1", "Service", "default", "web", some serviceWebDoc⟩
        = Except.ok ⟨"v1", "Service", "default", "web", serviceWebSanitized⟩ ∧
    mapGet serviceWebSanitized "spec"
        = some (Val.map [("ports", Val.arr [Val.map [("port", Val.int 80)]])]) ∧
    mapGet [("ports", Val.arr [Val.map [("port", Val.int 80)]])] "clusterIP" = none ∧
    mapGet [("port", Val.int 80)] "nodePort" = none ∧
    resourcePath ⟨"v1", "Service", "default", "web", serviceWebSanitized⟩
        = "namespaces/default/service/web.yaml" :=
  ⟨rfl, rfl, rfl, rfl, rfl⟩

/-- C2 counterexample: a batch with one record whose payload cannot be
normalized produces an error and no sanitized records at all — the two good
records are not returned, contradicting the claim that only the failing
record is excluded. -/
theorem c2_batch_abort_counterexample :
    SanitizeResources
      [⟨"v1", "ConfigMap", "default", "ok-1", some [("kind", Val.str "ConfigMap")]⟩,
       ⟨"v1", "Broken", "default", "bad", none⟩,
       ⟨"v1", "ConfigMap", "default", "ok-2", some [("kind", Val.str "ConfigMap")]⟩]
      = Except.error
          "failed to sanitize resource default/bad: failed to convert to unstructured" :=
  rfl

/-- C2 amended: if any record's raw payload cannot be normalized to a generic
document, `SanitizeResources` aborts the whole batch: it returns an error and
no sanitized records. -/
theorem c2_failing_record_aborts_batch (rs : List Resource) (r : Resource)
    (hmem : r ∈ rs) (hfail : r.obj = none) :
    ∃ e, SanitizeResources rs = Except.error e := by
  induction rs with
  | nil => cases hmem
  | cons a rest ih =>
    rcases List.mem_cons.mp hmem with h | h
    · subst h
      refine ⟨"failed to sanitize resource " ++ r.ns ++ "/" ++ r.name ++ ": "
        ++ "failed to convert to unstructured", ?_⟩
      unfold SanitizeResources sanitizeResource
      rw [hfail]
    · obtain ⟨e, he⟩ := ih h
      unfold SanitizeResources
      cases hsa : sanitizeResource a with
      | error e' => exact ⟨_, rfl⟩
      | ok s => rw [he]; exact ⟨e, rfl⟩

/-- Witness for C2: a singleton batch with an unconvertible record errors. -/
theorem c2_failing_record_witness :
    ∃ e, SanitizeResources [⟨"v1", "Broken", "ns", "bad", none⟩] = Except.error e :=
  c2_failing_record_aborts_batch _ ⟨"v1", "Broken", "ns", "bad", none⟩
    (List.mem_cons_self _ _) rfl

/-- C1 counterexample: in a cycle with no staged differences (empty tree,
empty record set) the synchronizer still attempts the push
(`backupResources` returns `didPush = true`), contradicting the claim that
both the commit and the push are skipped. -/
theorem c1_push_not_skipped_counterexample :
    treeClean (writeResources (cleanupOldBackups ([] : FileTree) []) []) [] = true ∧
    backupResources ⟨[], [], 0⟩ [] = (⟨[], [], 0⟩, false, true) :=
  ⟨rfl, rfl⟩

/-- C1 amended: in every cycle in which the working tree, after deletion
reconciliation and materialization, has no staged differences versus the last
commit, the synchronizer skips the commit (HEAD and the commit count are
unchanged) but still attempts the push. -/
theorem c1_clean_cycle_skips_commit_not_push (st : SyncState)
    (rs : List SanitizedResource)
    (h : treeClean (writeResources (cleanupOldBackups st.workTree rs) rs) st.head
        = true) :
    backupResources st rs =
      ({ st with workTree := writeResources (cleanupOldBackups st.workTree rs) rs },
        false, true) := by
  unfold backupResources commitChanges
  simp only [h, if_true]

/-- Witness for C1: a cycle whose records rewrite the tree byte-identically
commits nothing and still pushes. -/
theorem c1_clean_cycle_witness :
    backupResources ⟨prodNsTree, prodNsTree, 1⟩ prodNsRecords =
      (⟨writeResources (cleanupOldBackups prodNsTree prodNsRecords) prodNsRecords,
        prodNsTree, 1⟩, false, true) :=
  c1_clean_cycle_skips_commit_not_push ⟨prodNsTree, prodNsTree, 1⟩ prodNsRecords rfl

/-- C4 counterexample: a Namespace record is cluster-scoped (its namespace is
empty), yet with `excludeNamespaces = ["kube-system"]` the Namespace named
`kube-system` is rejected — `collectNamespaces` filters Namespace records by
their own name. -/
theorem c4_namespace_record_rejected_counterexample :
    collectNamespaces ⟨[], [], [], ["kube-system"]⟩ [⟨"kube-system", []⟩] = [] := rfl

/-- C4 amended: cluster-scoped PersistentVolume and StorageClass records are
collected with no namespace filtering at all, but Namespace records — though
cluster-scoped — are filtered by their own name against the namespace
include/exclude lists: one is collected exactly when its name passes
`shouldIncludeNamespace`. -/
theorem c4_cluster_scoped_filtering :
    (∀ (items : List PVItem) (pv : PVItem), pv ∈ items →
      (⟨"v1", "PersistentVolume", "", pv.name, some pv.raw⟩ : Resource)
        ∈ collectPersistentVolumes items) ∧
    (∀ (items : List StorageClassItem) (sc : StorageClassItem), sc ∈ items →
      (⟨"storage.k8s.io/v1", "StorageClass", "", sc.name, some sc.raw⟩ : Resource)
        ∈ collectStorageClasses items) ∧
    (∀ (cfg : KubernetesConfig) (items : List NamespaceItem) (it : NamespaceItem),
      it ∈ items → shouldIncludeNamespace cfg it.name = true →
      (⟨"v1", "Namespace", "", it.name, some it.raw⟩ : Resource)
        ∈ collectNamespaces cfg items) ∧
    (∀ (cfg : KubernetesConfig) (items : List NamespaceItem) (r : Resource),
      r ∈ collectNamespaces cfg items → shouldIncludeNamespace cfg r.name = true) := by
  refine ⟨?_, ?_, ?_, ?_⟩
  · intro items pv h
    exact List.mem_map_of_mem _ h
  · intro items sc h
    exact List.mem_map_of_mem _ h
  · intro cfg items it hmem hinc
    exact List.mem_map_of_mem _ (List.mem_filter.mpr ⟨hmem, hinc⟩)
  · intro cfg items r hr
    obtain ⟨it, hit, rfl⟩ := List.mem_map.mp hr
    exact (List.mem_filter.mp hit).2

/-- Witness for C4: a PV is collected with a restrictive config in scope, an
included Namespace is collected, and a collected Namespace passes the name
filter. -/
theorem c4_cluster_scoped_filtering_witness :
    (⟨"v1", "PersistentVolume", "", "pv0", some []⟩ : Resource)
      ∈ collectPersistentVolumes [⟨"pv0", []⟩] ∧
    (⟨"v1", "Namespace", "", "prod", some []⟩ : Resource)
      ∈ collectNamespaces ⟨[], [], [], ["kube-system"]⟩ [⟨"prod", []⟩] :=
  ⟨c4_cluster_scoped_filtering.1 [⟨"pv0", []⟩] ⟨"pv0", []⟩ (List.mem_cons_self _ _),
   c4_cluster_scoped_filtering.2.2.1 ⟨[], [], [], ["kube-system"]⟩ [⟨"prod", []⟩]
     ⟨"prod", []⟩ (List.mem_cons_self _ _) rfl⟩

/-- C10 counterexample: a ClusterRoleBinding named `admin` IS collected —
`collectClusterRoleBindings` only filters by the system name prefixes; the
`admin`/`edit`/`view` name check exists only for ClusterRoles. -/
theorem c10_crb_admin_collected_counterexample :
    collectClusterRoleBindings [⟨"admin", []⟩] =
      [⟨"rbac.authorization.k8s.io/v1", "ClusterRoleBinding", "", "admin", some []⟩] :=
  rfl

/-- C10 amended: even when kind and namespace pass the configured filters,
the collector omits: ConfigMaps named `kube-root-ca.crt`; Secrets of type
`kubernetes.io/service-account-token` or `helm.sh/release.v1`;
ServiceAccounts named `default`; ClusterRoles named `admin`, `edit` or `view`
or with a system name prefix; and ClusterRoleBindings with a system name
prefix — but a ClusterRoleBinding named `admin` is collected. -/
theorem c10_hardcoded_exclusions :
    (∀ (cfg : KubernetesConfig) (cm : ConfigMapItem), cm.name = "kube-root-ca.crt" →
      collectConfigMaps cfg [cm] = []) ∧
    (∀ (cfg : KubernetesConfig) (s : SecretItem),
      s.secretType = "kubernetes.io/service-account-token" ∨
        s.secretType = "helm.sh/release.v1" →
      collectSecrets cfg [s] = []) ∧
    (∀ (cfg : KubernetesConfig) (sa : ServiceAccountItem), sa.name = "default" →
      collectServiceAccounts cfg [sa] = []) ∧
    (∀ cr : ClusterRoleItem,
      cr.name = "admin" ∨ cr.name = "edit" ∨ cr.name = "view" ∨
        isSystemClusterRole cr.name = true →
      collectClusterRoles [cr] = []) ∧
    (∀ crb : ClusterRoleBindingItem, isSystemClusterRoleBinding crb.name = true →
      collectClusterRoleBindings [crb] = []) ∧
    (∀ crb : ClusterRoleBindingItem, crb.name = "admin" →
      collectClusterRoleBindings [crb] =
        [⟨"rbac.authorization.k8s.io/v1", "ClusterRoleBinding", "", crb.name,
          some crb.raw⟩]) := by
  refine ⟨?_, ?_, ?_, ?_, ?_, ?_⟩
  · intro cfg cm h
    simp [collectConfigMaps, List.filter_cons, h]
  · intro cfg s h
    rcases h with h | h <;> simp [collectSecrets, List.filter_cons, h]
  · intro cfg sa h
    simp [collectServiceAccounts, List.filter_cons, h]
  · intro cr h
    rcases h with h | h | h | h <;> simp [collectClusterRoles, List.filter_cons, h]
  · intro crb h
    simp [collectClusterRoleBindings, List.filter_cons, h]
  · intro crb h
    have hsys : isSystemClusterRoleBinding crb.name = false := by rw [h]; decide
    simp [collectClusterRoleBindings, List.filter_cons, hsys]

/-- C6: after deletion reconciliation and materialization, a snapshot path
(`.yaml`, outside `.git`) has a file in the working tree exactly when it is
in the current cycle's path set; and when the current paths are distinct,
every record's file holds exactly its serialized bytes (so a record whose
bytes are unchanged leaves its file content untouched).  In the prior set
`{A, B}` versus current set `{B, C}`: A's file is removed, C's is created,
B's keeps its bytes. -/
theorem c6_reconcile_exact_paths (wt : FileTree) (rs : List SanitizedResource) :
    (∀ p, strEndsWith p ".yaml" = true → strStartsWith p ".git" = false →
      ((lookupFile (writeResources (cleanupOldBackups wt rs) rs) p).isSome = true ↔
        p ∈ currentPaths rs)) ∧
    ((currentPaths rs).Nodup → ∀ r ∈ rs,
      lookupFile (writeResources (cleanupOldBackups wt rs) rs) (resourcePath r)
        = some r.yaml) := by
  constructor
  · intro p h1 h2
    rw [isSome_lookupFile_writeResources]
    constructor
    · rintro (h | h)
      · exact h
      · rw [lookupFile_cleanup] at h
        by_cases hc : (currentPaths rs).contains p = true
        · exact List.mem_of_elem_eq_true hc
        · rw [Bool.not_eq_true] at hc
          rw [h1, h2, hc] at h
          simp at h
    · intro hmem
      exact Or.inl hmem
  · intro hnd r hr
    exact lookupFile_writeResources_self_of_nodup hnd _ hr

/-- Witness for C6: with prior tree `{A, B}` and current records `{B, C}`,
A's path is reconciled away, C's appears, and B's file holds its (unchanged)
bytes. -/
theorem c6_reconcile_witness :
    ((lookupFile (writeResources (cleanupOldBackups treeAB recordsBC) recordsBC)
        "namespaces/default/configmap/a.yaml").isSome = true ↔
      "namespaces/default/configmap/a.yaml" ∈ currentPaths recordsBC) ∧
    ((lookupFile (writeResources (cleanupOldBackups treeAB recordsBC) recordsBC)
        "namespaces/default/configmap/c.yaml").isSome = true ↔
      "namespaces/default/configmap/c.yaml" ∈ currentPaths recordsBC) ∧
    lookupFile (writeResources (cleanupOldBackups treeAB recordsBC) recordsBC)
        (resourcePath recordB) = some recordB.yaml :=
  ⟨(c6_reconcile_exact_paths treeAB recordsBC).1 _ rfl rfl,
   (c6_reconcile_exact_paths treeAB recordsBC).1 _ rfl rfl,
   (c6_reconcile_exact_paths treeAB recordsBC).2 (by decide)
     recordB (List.mem_cons_self _ _)⟩

/-- C9 counterexample: on the strip path `b]a[.c` — whose first segment has
`]` before `[` — `removeFieldByPath` panics (Go slice-bounds violation in
`part[i1+1:i2]`) on every document, even the empty one, instead of stopping
silently. -/
theorem c9_panic_counterexample : removeFieldByPath [] "b]a[.c" = none := rfl

/-- C9 amended: `removeFieldByPath` never signals an error on any document
for every strip path whose non-final segments are bracket-well-formed (no
segment with a first `]` before its first `[` unless it contains `[]`); and
traversal stops silently, leaving the document exactly unchanged, when an
intermediate plain segment is missing or refers to a non-map value. -/
theorem c9_no_panic_on_wellformed_paths :
    (∀ (obj : Doc) (path : String), pathOK path = true →
      (removeFieldByPath obj path).isSome = true) ∧
    (∀ (obj : Doc) (part q : String) (rest : List String),
      hasWildcard part = false →
      (strContainsChar part '[' && strContainsChar part ']') = false →
      mapGet obj part = none →
      removeSub (part :: q :: rest) obj = some obj) ∧
    (∀ (obj : Doc) (part q : String) (rest : List String) (v : Val),
      hasWildcard part = false →
      (strContainsChar part '[' && strContainsChar part ']') = false →
      mapGet obj part = some v → (∀ mm, v ≠ Val.map mm) →
      removeSub (part :: q :: rest) obj = some obj) := by
  refine ⟨?_, ?_, ?_⟩
  · intro obj path hOK
    unfold removeFieldByPath
    by_cases hp : (path == "") = true
    · rw [if_pos hp]; rfl
    · rw [if_neg hp]
      exact removeSub_isSome (splitDots path) hOK obj
  · intro obj part q rest hw hb hm
    rw [removeSub_cons_plain hw hb, hm]
  · intro obj part q rest v hw hb hm hv
    rw [removeSub_cons_plain hw hb, hm]
    cases v with
    | map mm => exact absurd rfl (hv mm)
    | str s => rfl
    | int n => rfl
    | bool b => rfl
    | null => rfl
    | arr l => rfl

/-- Witness for C9: a well-formed path is total on a concrete document;
a missing plain segment and a non-map segment are silent no-ops. -/
theorem c9_no_panic_witness :
    (removeFieldByPath [("a", Val.str "x")] "metadata.uid").isSome = true ∧
    removeSub ["spec", "ports"] [("a", Val.str "x")] = some [("a", Val.str "x")] ∧
    removeSub ["a", "b"] [("a", Val.str "x")] = some [("a", Val.str "x")] :=
  ⟨c9_no_panic_on_wellformed_paths.1 [("a", Val.str "x")] "metadata.uid" rfl,
   c9_no_panic_on_wellformed_paths.2.1 [("a", Val.str "x")] "spec" "ports" [] rfl rfl rfl,
   c9_no_panic_on_wellformed_paths.2.2 [("a", Val.str "x")] "a" "b" [] (Val.str "x")
     rfl rfl rfl (fun _ hh => Val.noConfusion hh)⟩

/-- Witness for C10: each hard-coded rule fires on a concrete item. -/
theorem c10_hardcoded_exclusions_witness :
    collectConfigMaps ⟨[], [], [], []⟩ [⟨"kube-system", "kube-root-ca.crt", []⟩] = [] ∧
    collectSecrets ⟨[], [], [], []⟩
      [⟨"default", "sa-token", "kubernetes.io/service-account-token", []⟩] = [] ∧
    collectServiceAccounts ⟨[], [], [], []⟩ [⟨"default", "default", []⟩] = [] ∧
    collectClusterRoles [⟨"edit", []⟩] = [] ∧
    collectClusterRoles [⟨"system:node", []⟩] = [] ∧
    collectClusterRoleBindings [⟨"system:basic-user", []⟩] = [] :=
  ⟨c10_hardcoded_exclusions.1 _ _ rfl,
   c10_hardcoded_exclusions.2.1 _ _ (Or.inl rfl),
   c10_hardcoded_exclusions.2.2.1 _ _ rfl,
   c10_hardcoded_exclusions.2.2.2.1 _ (Or.inr (Or.inl rfl)),
   c10_hardcoded_exclusions.2.2.2.1 _ (Or.inr (Or.inr (Or.inr (by decide)))),
   c10_hardcoded_exclusions.2.2.2.2.1 _ (by decide)⟩

/-- C8: the sanitization pipeline (metadata scrub, kind-specific spec scrub,
status scrub, declarative path-strip pass) is idempotent: whenever one
application of sanitizeDoc yields a document y, applying sanitizeDoc to y
yields y again. -/
theorem c8_sanitize_idempotent (x y : Doc) (h : sanitizeDoc x = some y) :
    sanitizeDoc y = some y :=
  sanitizeDoc_fix (sanitizedInv_of_sanitizeDoc h)

/-- Witness for C8: the sanitized form of the Service fixture is a fixed
point of the pipeline. -/
theorem c8_sanitize_idempotent_witness :
    sanitizeDoc serviceWebDoc = some serviceWebSanitized ∧
    sanitizeDoc serviceWebSanitized = some serviceWebSanitized :=
  ⟨rfl, c8_sanitize_idempotent serviceWebDoc serviceWebSanitized rfl⟩

end KubeGitBackup
